import Mathlib

/-!
# Verification of the file-converter job queue and conversion-routing core

Shallow embedding of the queue/router/config logic of the TolesaD/file-converter
repository (`src/config.py`, `src/queue_manager.py`, `src/database.py`,
`src/converters/converter_router.py`, `src/converters/universal_converter.py`),
together with proofs of the testable properties stated in its specification.

Conventions:
* Python strings are Lean `String`s; Python ints are `Nat`.
* Python dicts that are used as ordered association containers are embedded as
  association lists in insertion order, looked up with `List.lookup`.
* The stateful queue manager is embedded as a small-step transition system
  (`Step`) over `SysState`; `Reachable` is its reflexive-transitive closure
  from the initial state.
-/

namespace FileConverter

/-! ## Configuration (`src/config.py`) -/

/-- Embeds `Config.MAX_CONCURRENT_JOBS` (config.py line 41). -/
def MAX_CONCURRENT_JOBS : Nat := 2

/-- Embeds `Config.MAX_CONVERSION_TIME` (config.py line 33), seconds. -/
def MAX_CONVERSION_TIME : Nat := 1800

/-- Embeds `Config.IMAGE_CONVERSION_TIMEOUT` (config.py line 34), seconds. -/
def IMAGE_CONVERSION_TIMEOUT : Nat := 300

/-- Embeds `Config.AUDIO_CONVERSION_TIMEOUT` (config.py line 35), seconds. -/
def AUDIO_CONVERSION_TIMEOUT : Nat := 600

/-- Embeds `Config.VIDEO_CONVERSION_TIMEOUT` (config.py line 36), seconds. -/
def VIDEO_CONVERSION_TIMEOUT : Nat := 1800

/-- Embeds `Config.DOCUMENT_CONVERSION_TIMEOUT` (config.py line 37), seconds. -/
def DOCUMENT_CONVERSION_TIMEOUT : Nat := 600

/-- Embeds `Config.PRESENTATION_CONVERSION_TIMEOUT` (config.py line 38), seconds. -/
def PRESENTATION_CONVERSION_TIMEOUT : Nat := 600

/-- Embeds `Config.SUPPORTED_FORMATS` (config.py lines 56-62), in dict insertion order. -/
def SUPPORTED_FORMATS : List (String × List String) :=
  [("image", ["png", "jpg", "jpeg", "bmp", "gif"]),
   ("audio", ["mp3", "wav", "aac"]),
   ("video", ["mp4", "avi", "mov", "mkv"]),
   ("document", ["pdf", "docx", "txt", "xlsx", "odt"]),
   ("presentation", ["pptx", "ppt"])]

/-- Embeds `Config.CONVERSION_MAP` (config.py lines 74-104), in dict insertion order. -/
def CONVERSION_MAP : List (String × List (String × List String)) :=
  [("image",
    [("png", ["jpg", "jpeg", "bmp", "gif", "pdf"]),
     ("jpg", ["png", "jpeg", "bmp", "gif", "pdf"]),
     ("jpeg", ["png", "jpg", "bmp", "gif", "pdf"]),
     ("bmp", ["png", "jpg", "jpeg", "gif", "pdf"]),
     ("gif", ["png", "jpg", "jpeg", "bmp", "pdf"])]),
   ("audio",
    [("mp3", ["wav", "aac"]),
     ("wav", ["mp3", "aac"]),
     ("aac", ["mp3", "wav"])]),
   ("video",
    [("mp4", ["avi", "mov", "mkv", "gif"]),
     ("avi", ["mp4", "mov", "mkv"]),
     ("mov", ["mp4", "avi", "mkv"]),
     ("mkv", ["mp4", "avi", "mov"])]),
   ("document",
    [("pdf", ["docx", "txt", "xlsx"]),
     ("docx", ["pdf", "txt"]),
     ("txt", ["pdf", "docx"]),
     ("xlsx", ["pdf"]),
     ("odt", ["pdf"])]),
   ("presentation",
    [("pptx", ["pdf"]),
     ("ppt", ["pdf"])])]

/-- Embeds `Config.get_conversion_timeout` (config.py lines 107-117): a dict lookup on
the category with default `MAX_CONVERSION_TIME`. -/
def get_conversion_timeout (category : String) : Nat :=
  (List.lookup category
    [("image", IMAGE_CONVERSION_TIMEOUT),
     ("audio", AUDIO_CONVERSION_TIMEOUT),
     ("video", VIDEO_CONVERSION_TIMEOUT),
     ("document", DOCUMENT_CONVERSION_TIMEOUT),
     ("presentation", PRESENTATION_CONVERSION_TIMEOUT)]).getD MAX_CONVERSION_TIME

/-! ## Category classification

Two distinct implementations exist in the source:
`QueueManager._get_file_category` (queue_manager.py lines 190-197) lower-cases
only and defaults to `'document'`; `ConverterRouter.get_file_category`
(converter_router.py lines 17-28) lower-cases, strips leading dots, rejects an
explicit unsupported list, and returns `None` on no match. -/

/-- Python `str.lower()` on the ASCII extensions this system handles,
written with structural recursion so that the kernel can evaluate it
(`String.toLower` itself is defined by well-founded recursion). -/
def pyLower (s : String) : String :=
  String.mk (s.data.map Char.toLower)

/-- Embeds `QueueManager._get_file_category` (queue_manager.py lines 190-197). -/
def qm_get_file_category (file_extension : String) : String :=
  let e := pyLower file_extension
  match SUPPORTED_FORMATS.find? (fun p => p.2.contains e) with
  | some p => p.1
  | none => "document"

/-- Embeds `ConverterRouter.unsupported_formats` (converter_router.py lines 12-15). -/
def unsupported_formats : List String :=
  ["torrent", "zip", "rar", "7z", "tar", "gz", "bz2", "xz", "iso", "dmg",
   "exe", "app", "deb", "rpm", "msi", "apk"]

/-- Python `str.lstrip('.')`: remove every leading `'.'` character. -/
def lstripDot (s : String) : String :=
  String.mk (s.toList.dropWhile (fun c => c = '.'))

/-- Embeds `ConverterRouter.get_file_category` (converter_router.py lines 17-28). -/
def router_get_file_category (file_extension : String) : Option String :=
  let e := lstripDot (pyLower file_extension)
  if unsupported_formats.contains e then none
  else (SUPPORTED_FORMATS.find? (fun p => p.2.contains e)).map Prod.fst

/-! ## `ConverterRouter.get_supported_conversions` (converter_router.py lines 80-131)

The Python code deduplicates with `list(set(supported))`.  The iteration order
of a Python `set` of strings is determined by the interpreter's randomized
string hashes, i.e. it is fixed within one process run but varies between runs.
We model it by a parameter `σ` — the process's enumeration order over all
strings — and embed `list(set(xs))` as the elements of `σ` that occur in `xs`
(each exactly once when `σ` has no duplicates). -/

/-- Model of Python `list(set(xs))` under process-wide set-enumeration order `σ`. -/
def pySetList (σ : List String) (xs : List String) : List String :=
  σ.filter (fun s => xs.contains s)

/-- The `common_formats` priority list (converter_router.py line 127). -/
def common_formats : List String :=
  ["pdf", "jpg", "png", "mp3", "mp4", "docx", "txt", "webp"]

/-- The `CONVERSION_MAP` contribution (converter_router.py lines 90-92):
both lookups are by the raw `input_extension`/category, defaulting to nothing. -/
def mapTargets (input_category input_extension : String) : List String :=
  match CONVERSION_MAP.lookup input_category with
  | some m => (m.lookup input_extension).getD []
  | none => []

/-- The cross-category `if/elif` chain (converter_router.py lines 95-106). -/
def crossTargets (input_category input_extension : String) : List String :=
  if input_category = "image" then ["pdf", "jpg", "png", "webp", "bmp"]
  else if input_extension = "pdf" then ["jpg", "png", "docx", "txt", "html"]
  else if input_category = "video" then ["mp3", "wav", "gif", "mp4", "avi"]
  else if input_extension = "docx" then ["pdf", "txt"]
  else if input_extension = "xlsx" ∨ input_extension = "xls" then ["pdf"]
  else if input_extension = "pptx" ∨ input_extension = "ppt" then ["pdf"]
  else []

/-- The basic same-category `if/elif` chain (converter_router.py lines 109-120). -/
def basicTargets (input_category input_extension : String) : List String :=
  if input_category = "image" then
    ["jpg", "png", "webp", "bmp", "gif", "tiff", "jpeg"].filter (fun f => f ≠ input_extension)
  else if input_category = "audio" then
    ["mp3", "wav", "ogg", "flac", "m4a"].filter (fun f => f ≠ input_extension)
  else if input_category = "video" then
    ["mp4", "avi", "mov", "webm", "mkv"].filter (fun f => f ≠ input_extension)
  else if input_category = "document" then
    ["pdf", "txt", "docx", "html"].filter (fun f => f ≠ input_extension)
  else []

/-- The `supported` list right before deduplication: the three `extend` groups
concatenated, then the unsupported-format filter (converter_router.py line 123). -/
def filteredSupported (input_category input_extension : String) : List String :=
  (mapTargets input_category input_extension
    ++ crossTargets input_category input_extension
    ++ basicTargets input_category input_extension).filter
      (fun f => ¬ unsupported_formats.contains f)

/-- Embeds `ConverterRouter.get_supported_conversions` (converter_router.py lines
80-131), parameterized by the set-enumeration order `σ` of the process run. -/
def get_supported_conversions (σ : List String) (input_extension : String) : List String :=
  match router_get_file_category input_extension with
  | none => []
  | some input_category =>
    let supported := pySetList σ (filteredSupported input_category input_extension)
    let sorted_supported :=
      common_formats.filter (fun f => supported.contains f)
        ++ supported.filter (fun f => ¬ common_formats.contains f)
    sorted_supported.take 15

/-- Every format string that can ever enter `supported`; used as a canonical
set-enumeration order and as the coverage requirement on `σ`. -/
def allFormats : List String :=
  ["jpg", "jpeg", "png", "bmp", "gif", "tiff", "webp", "pdf",
   "mp3", "wav", "aac", "ogg", "flac", "m4a",
   "mp4", "avi", "mov", "mkv", "webm",
   "docx", "txt", "xlsx", "html"]

/-- Per-category closure of all formats that can enter `supported` for an
input of that category (over-approximation used for cardinality bounds). -/
def catUniverse (category : String) : List String :=
  if category = "image" then
    ["jpg", "jpeg", "bmp", "gif", "pdf", "png", "webp", "tiff"]
  else if category = "audio" then
    ["mp3", "wav", "aac", "ogg", "flac", "m4a", "jpg", "png", "docx", "txt", "html", "pdf"]
  else if category = "video" then
    ["avi", "mov", "mkv", "gif", "mp4", "jpg", "png", "docx", "txt", "html", "mp3", "wav", "webm"]
  else if category = "document" then
    ["docx", "txt", "xlsx", "pdf", "jpg", "png", "html"]
  else if category = "presentation" then
    ["pdf", "jpg", "png", "docx", "txt", "html"]
  else []

/-- The extensions stored by the system itself: lower-cased, no dot
(the members of `Config.SUPPORTED_FORMATS`). -/
def canonicalExtensions : List String :=
  ["png", "jpg", "jpeg", "bmp", "gif",
   "mp3", "wav", "aac",
   "mp4", "avi", "mov", "mkv",
   "pdf", "docx", "txt", "xlsx", "odt",
   "pptx", "ppt"]

/-! ## Strategy fallback (`universal_converter.py` lines 271-325, 565-624)

The only multi-strategy plans in the source are two-deep fallback chains; the
video→GIF chain is the one named by the specification.  An external invocation
(ffprobe/ffmpeg run under its own 120s/90s command timeout) either returns an
output path or raises an error string (a timeout raises
`"Command timeout after ... seconds"`, so timeouts are ordinary errors here). -/

/-- Result of one external strategy invocation. -/
inductive StratResult
  | ok (path : String)
  | err (msg : String)
deriving DecidableEq, Repr

/-- Embeds `UniversalConverter._convert_video_to_gif_ffmpeg` (lines 271-309): try the
palette-based FFmpeg strategy; on any exception fall back to
`_convert_video_to_gif_fallback` (lines 311-325), which wraps its own failure. -/
def convert_video_to_gif_ffmpeg (primary fallback : StratResult) : StratResult :=
  match primary with
  | .ok p => .ok p
  | .err _ =>
    match fallback with
    | .ok p => .ok p
    | .err e => .err ("Fallback GIF conversion failed: " ++ e)

/-- Embeds `UniversalConverter._convert_video` on the `gif` branch (lines 565-624):
the chain's failure is re-wrapped by the surrounding `except`. -/
def convert_video_gif (primary fallback : StratResult) : StratResult :=
  match convert_video_to_gif_ffmpeg primary fallback with
  | .ok p => .ok p
  | .err e => .err ("Professional video conversion failed: " ++ e)

/-! ## Job records and the queue-manager transition system

`QueueManager` (queue_manager.py) runs one dispatch loop (`process_queue`) and
spawns one `process_job` task per admitted job; `Config.active_jobs` is guarded
by `Config.job_lock`.  We embed each lock-protected or database access as one
atomic step and allow arbitrary interleavings of the dispatcher, the workers,
enqueuers and admin ban flips. -/

/-- Job status as stored in the `conversion_jobs` table (database.py line 37,
queue_manager.py updates). -/
inductive JobStatus
  | queued
  | processing
  | completed
  | failed
deriving DecidableEq, Repr

/-- Progress of a spawned `process_job` task: before the conversion call,
inside it, after the terminal status update (`try`/`except` body done), after
the `finally` decrement, and after the `finally` file cleanup. -/
inductive WPhase
  | started
  | converting
  | statusSet
  | decremented
  | done
deriving DecidableEq, Repr

/-- Where a ban was detected for a job: at the dispatcher's pull from the
queue (queue_manager.py lines 73-81) or at the worker's re-check at the start
of `process_job` (lines 108-111). -/
inductive BanPoint
  | dispatcherPull
  | workerStart
deriving DecidableEq, Repr

/-- A message delivered to the requester: `send_ban_notification`
(queue_manager.py lines 373-387) versus `send_status_update`
(lines 235-371, with its message text and progress argument). -/
inductive Notice
  | ban
  | statusUpdate (message : String) (progress : Nat)
deriving DecidableEq, Repr

/-- The exception text of the enqueue-time ban check (queue_manager.py line 21). -/
def banEnqueueErr : String := "User account is banned"

/-- The `error_message` set on the dispatcher's ban path (queue_manager.py line 77). -/
def banPullErr : String := "User account banned"

/-- The exception text of the worker's ban re-check (queue_manager.py line 111). -/
def banWorkerErr : String := "User account banned during processing"

/-- The failure notification text (queue_manager.py line 178). -/
def failNoticeText (m : String) : String := "❌ Professional conversion failed: " ++ m

/-- The admission notification text (queue_manager.py line 117). -/
def startedNoticeText : String := "🔄 Professional conversion started..."

/-- The completion notification text (queue_manager.py line 153). -/
def completedNoticeText : String := "✅ Professional conversion completed!"

/-- One conversion job: the persisted `conversion_jobs` row together with the
runtime facts this verification tracks (worker phase, whether a conversion
strategy was invoked, how often `active_jobs` was decremented for it, whether
its input file is still on disk, the timeout handed to `asyncio.wait_for`,
and the notifications sent for it). -/
structure JState where
  id : Nat
  userId : Nat
  inputPath : String
  inputType : String
  outputFormat : String
  fileSize : Nat
  status : JobStatus
  progress : Nat
  errorMessage : Option String
  outputFilePath : Option String
  queuePosition : Nat
  phase : Option WPhase
  strategyInvoked : Bool
  decrements : Nat
  inputFileOnDisk : Bool
  timeoutUsed : Option Nat
  banDetected : Option BanPoint
  notices : List Notice
deriving DecidableEq, Repr

/-- Program counter of the single dispatch loop (`process_queue`):
at the loop head; past the `active_jobs < MAX_CONCURRENT_JOBS` check (lock
released); holding a job pulled from the FIFO; or having marked that job
`processing` but not yet incremented `active_jobs`. -/
inductive DPC
  | loopHead
  | checked
  | hasJob (i : Nat)
  | marked (i : Nat)
deriving DecidableEq, Repr

/-- The dispatcher is between its capacity check and the corresponding
`active_jobs` increment. -/
def DPC.pastCheck : DPC → Prop
  | .loopHead => False
  | _ => True

/-- Whole-system state: the job table, the `asyncio.Queue` contents (job ids),
`Config.active_jobs`, the dispatcher's position, the users' ban flags, and the
next AUTOINCREMENT id of the `conversion_jobs` table. -/
structure SysState where
  jobs : List JState
  fifo : List Nat
  activeJobs : Nat
  dpc : DPC
  banned : Nat → Bool
  nextId : Nat

/-- Look a job up by id. -/
def findJob (jobs : List JState) (i : Nat) : Option JState :=
  jobs.find? (fun j => j.id == i)

/-- Update the job with id `i`. -/
def updJob (jobs : List JState) (i : Nat) (f : JState → JState) : List JState :=
  jobs.map (fun j => if j.id = i then f j else j)

/-- Embeds `Database.get_queued_jobs_count` (database.py lines 195-207):
`COUNT(*)` over status `IN ('queued', 'processing')` — all requesters. -/
def get_queued_jobs_count (jobs : List JState) : Nat :=
  jobs.countP (fun j => j.status == .queued || j.status == .processing)

/-- The row inserted by `Database.add_conversion_job` (database.py lines
111-131) with the table defaults (status `'queued'`, progress 0), plus the
initial runtime facts (input file on disk, no worker yet). -/
def newJob (s : SysState) (u : Nat) (ip it of : String) (fs pos : Nat) : JState :=
  { id := s.nextId
    userId := u
    inputPath := ip
    inputType := it
    outputFormat := of
    fileSize := fs
    status := .queued
    progress := 0
    errorMessage := none
    outputFilePath := none
    queuePosition := pos
    phase := none
    strategyInvoked := false
    decrements := 0
    inputFileOnDisk := true
    timeoutUsed := none
    banDetected := none
    notices := [] }

/-- Embeds `QueueManager.add_to_queue` (queue_manager.py lines 15-48): reject banned
requesters, compute `queue_position = get_queued_jobs_count() + 1`, insert the
`queued` row (the AUTOINCREMENT id becomes `job_id`), append the job to
`Config.processing_queue`, and return `(job_id, queue_position)`. -/
def add_to_queue (s : SysState) (u : Nat) (ip it of : String) (fs : Nat) :
    Except String (SysState × Nat × Nat) :=
  if s.banned u then .error banEnqueueErr
  else
    let pos := get_queued_jobs_count s.jobs + 1
    let jid := s.nextId
    .ok ({ s with
            jobs := s.jobs ++ [newJob s u ip it of fs pos]
            fifo := s.fifo ++ [jid]
            nextId := s.nextId + 1 }, jid, pos)

/-- Dispatcher ban path (queue_manager.py lines 75-81): mark the job failed
with the ban error, send the ban-specific notification, delete the input file. -/
def banPullUpdate (j : JState) : JState :=
  { j with
      status := .failed
      errorMessage := some banPullErr
      banDetected := some .dispatcherPull
      notices := j.notices ++ [.ban]
      inputFileOnDisk := false }

/-- Admission update (queue_manager.py line 84): status `processing`,
progress 10. -/
def markUpdate (j : JState) : JState :=
  { j with status := .processing, progress := 10 }

/-- The spawned `process_job` task exists (queue_manager.py line 93). -/
def spawnUpdate (j : JState) : JState :=
  { j with phase := some .started }

/-- Worker ban re-check fires (queue_manager.py lines 108-111): the raised
exception lands in the generic `except` handler (lines 167-180), which marks
the job failed with the exception text and sends the generic failure-format
status update — not the ban-specific notification. -/
def workerBanUpdate (j : JState) : JState :=
  { j with
      status := .failed
      errorMessage := some banWorkerErr
      banDetected := some .workerStart
      phase := some .statusSet
      notices := j.notices ++ [.statusUpdate (failNoticeText banWorkerErr) 0] }

/-- Worker passes the re-check (queue_manager.py lines 113-131): sends the
admission notification, selects the timeout from the input file's category,
and invokes the conversion under `asyncio.wait_for`. -/
def convertStartUpdate (j : JState) : JState :=
  { j with
      phase := some .converting
      strategyInvoked := true
      timeoutUsed := some (get_conversion_timeout (qm_get_file_category j.inputType))
      notices := j.notices ++ [.statusUpdate startedNoticeText 20] }

/-- Success path (queue_manager.py lines 135-162): one update sets status
`completed`, progress 100 and the output path, then the completion
notification is sent. -/
def successUpdate (p : String) (j : JState) : JState :=
  { j with
      status := .completed
      progress := 100
      outputFilePath := some p
      phase := some .statusSet
      notices := j.notices ++ [.statusUpdate completedNoticeText 100] }

/-- Failure path (queue_manager.py lines 167-180): status `failed` with the
exception text (progress not touched), then the failure notification. -/
def failureUpdate (m : String) (j : JState) : JState :=
  { j with
      status := .failed
      errorMessage := some m
      phase := some .statusSet
      notices := j.notices ++ [.statusUpdate (failNoticeText m) 0] }

/-- First half of the worker's `finally` (queue_manager.py lines 183-185):
`active_jobs = max(0, active_jobs - 1)` under the lock — `Nat` subtraction
is exactly `max 0 (n - 1)`. -/
def decrementUpdate (j : JState) : JState :=
  { j with phase := some .decremented, decrements := j.decrements + 1 }

/-- Second half of the worker's `finally` (queue_manager.py line 188 and
`cleanup_files`, lines 414-421): the input file is removed. -/
def cleanupUpdate (j : JState) : JState :=
  { j with phase := some .done, inputFileOnDisk := false }

/-- One atomic step of the system: an enqueue, an admin ban flip, one
dispatcher action of `process_queue` (lines 60-95), or one worker action of
`process_job` (lines 103-188).  Conversion outcomes (`workerSuccess` with any
output path validated non-empty, `workerFailure` with any error text,
including the `asyncio.TimeoutError` text of line 133) are chosen by the
environment. -/
inductive Step : SysState → SysState → Prop
  | enqueue {s s' : SysState} (u : Nat) (ip it of : String) (fs : Nat) {jid pos : Nat} :
      add_to_queue s u ip it of fs = .ok (s', jid, pos) →
      Step s s'
  | setBan {s : SysState} (u : Nat) (b : Bool) :
      Step s { s with banned := fun v => if v = u then b else s.banned v }
  | dispatchCheck {s : SysState} :
      s.dpc = .loopHead → s.activeJobs < MAX_CONCURRENT_JOBS →
      Step s { s with dpc := .checked }
  | dispatchTimeout {s : SysState} :
      s.dpc = .checked → s.fifo = [] →
      Step s { s with dpc := .loopHead }
  | dispatchGet {s : SysState} (i : Nat) (rest : List Nat) :
      s.dpc = .checked → s.fifo = i :: rest →
      Step s { s with dpc := .hasJob i, fifo := rest }
  | dispatchBanned {s : SysState} (i : Nat) (j : JState) :
      s.dpc = .hasJob i → findJob s.jobs i = some j → s.banned j.userId = true →
      Step s { s with dpc := .loopHead, jobs := updJob s.jobs i banPullUpdate }
  | dispatchMark {s : SysState} (i : Nat) (j : JState) :
      s.dpc = .hasJob i → findJob s.jobs i = some j → s.banned j.userId = false →
      Step s { s with dpc := .marked i, jobs := updJob s.jobs i markUpdate }
  | dispatchSpawn {s : SysState} (i : Nat) :
      s.dpc = .marked i →
      Step s { s with
                dpc := .loopHead
                activeJobs := s.activeJobs + 1
                jobs := updJob s.jobs i spawnUpdate }
  | workerBanned {s : SysState} (i : Nat) (j : JState) :
      findJob s.jobs i = some j → j.phase = some .started → s.banned j.userId = true →
      Step s { s with jobs := updJob s.jobs i workerBanUpdate }
  | workerConvertStart {s : SysState} (i : Nat) (j : JState) :
      findJob s.jobs i = some j → j.phase = some .started → s.banned j.userId = false →
      Step s { s with jobs := updJob s.jobs i convertStartUpdate }
  | workerSuccess {s : SysState} (i : Nat) (j : JState) (p : String) :
      findJob s.jobs i = some j → j.phase = some .converting →
      Step s { s with jobs := updJob s.jobs i (successUpdate p) }
  | workerFailure {s : SysState} (i : Nat) (j : JState) (m : String) :
      findJob s.jobs i = some j → j.phase = some .converting →
      Step s { s with jobs := updJob s.jobs i (failureUpdate m) }
  | workerDecrement {s : SysState} (i : Nat) (j : JState) :
      findJob s.jobs i = some j → j.phase = some .statusSet →
      Step s { s with
                activeJobs := s.activeJobs - 1
                jobs := updJob s.jobs i decrementUpdate }
  | workerCleanup {s : SysState} (i : Nat) (j : JState) :
      findJob s.jobs i = some j → j.phase = some .decremented →
      Step s { s with jobs := updJob s.jobs i cleanupUpdate }

/-- The program's start state: empty tables and queue, `active_jobs = 0`,
dispatcher at the loop head, nobody banned. -/
def initState : SysState :=
  { jobs := []
    fifo := []
    activeJobs := 0
    dpc := .loopHead
    banned := fun _ => false
    nextId := 1 }

/-- Reachability from the start state under arbitrary interleavings. -/
def Reachable (s : SysState) : Prop :=
  Relation.ReflTransGen Step initState s

/-- Boolean: the job is counted in `active_jobs` (admitted, not yet
decremented). -/
def inFlightB (j : JState) : Bool :=
  j.phase == some .started || j.phase == some .converting || j.phase == some .statusSet

/-- Boolean: the job's worker is before its terminal status update. -/
def runningB (j : JState) : Bool :=
  j.phase == some .started || j.phase == some .converting

/-- Boolean: the job row reads status `processing`. -/
def processingB (j : JState) : Bool := j.status == .processing

/-- Per-job bookkeeping invariant: decrement count and cleanup follow the
worker's phase, and no strategy is invoked before the conversion call. -/
def JobLedger (j : JState) : Prop :=
  ((j.phase = none ∨ j.phase = some .started ∨ j.phase = some .converting ∨
      j.phase = some .statusSet) → j.decrements = 0) ∧
  ((j.phase = some .decremented ∨ j.phase = some .done) → j.decrements = 1) ∧
  (j.phase = some .done → j.inputFileOnDisk = false) ∧
  ((j.phase = none ∨ j.phase = some .started) → j.strategyInvoked = false)

/-- Per-job ban bookkeeping: a ban-detected job failed without a strategy
invocation, the dispatcher path sent the ban notification, the worker path
sent the generic failure-format notification. -/
def BanFacts (j : JState) : Prop :=
  (∀ p, j.banDetected = some p → j.status = .failed ∧ j.strategyInvoked = false) ∧
  (j.banDetected = some .dispatcherPull → Notice.ban ∈ j.notices) ∧
  (j.banDetected = some .workerStart →
    Notice.statusUpdate (failNoticeText banWorkerErr) 0 ∈ j.notices ∧
    Notice.ban ∉ j.notices)

/-- The inductive invariant of the system. -/
structure Inv (s : SysState) : Prop where
  idsNodup : (s.jobs.map (fun j => j.id)).Nodup
  idsFresh : ∀ j ∈ s.jobs, j.id < s.nextId
  activeEq : s.activeJobs = s.jobs.countP inFlightB
  activeLe : s.activeJobs ≤ MAX_CONCURRENT_JOBS
  pastCheckLt : s.dpc.pastCheck → s.activeJobs < MAX_CONCURRENT_JOBS
  procIff : ∀ j ∈ s.jobs,
    (j.status = .processing ↔
      (j.phase = some .started ∨ j.phase = some .converting ∨ s.dpc = .marked j.id))
  markedWit : ∀ i, s.dpc = .marked i → ∃ j ∈ s.jobs, j.id = i ∧ j.phase = none
  hasJobWit : ∀ i, s.dpc = .hasJob i →
    ∃ j ∈ s.jobs, j.id = i ∧ j.phase = none ∧ j.status = .queued
  fifoWit : ∀ i ∈ s.fifo, ∃ j ∈ s.jobs, j.id = i ∧ j.phase = none ∧ j.status = .queued
  progIff : ∀ j ∈ s.jobs, (j.progress = 100 ↔ j.status = .completed)
  ledger : ∀ j ∈ s.jobs, JobLedger j
  banFacts : ∀ j ∈ s.jobs, BanFacts j
  banNotice : ∀ j ∈ s.jobs, Notice.ban ∈ j.notices → j.banDetected = some .dispatcherPull
  timeoutEq : ∀ j ∈ s.jobs, ∀ t, j.timeoutUsed = some t →
    t = get_conversion_timeout (qm_get_file_category j.inputType)
  pcNotInFifo : ∀ i, (s.dpc = .hasJob i ∨ s.dpc = .marked i) → i ∉ s.fifo
  fifoNodup : s.fifo.Nodup

/-- The per-requester queued-or-processing count named by the specification
("count of currently queued-or-processing jobs for that requester") — stated
from the spec's words, for comparison with the code's global
`get_queued_jobs_count`. -/
def spec_user_queued_count (jobs : List JState) (u : Nat) : Nat :=
  jobs.countP (fun j => j.userId == u && (j.status == .queued || j.status == .processing))

/-! ## Concrete executions

A run in which user 1 enqueues a png→pdf job that is admitted, converted and
cleaned up (`tr1`–`tr9`), and a variant in which user 1 is banned after the
worker is spawned (`cexBanState`). -/

/-- The job user 1 enqueues in the example run. -/
def traceJob : JState := newJob initState 1 "a.png" "png" "pdf" 5 1

/-- After `add_to_queue initState 1 "a.png" "png" "pdf" 5`. -/
def tr1 : SysState :=
  { initState with jobs := [traceJob], fifo := [1], nextId := 2 }

/-- Dispatcher passed the capacity check. -/
def tr2 : SysState := { tr1 with dpc := .checked }

/-- Dispatcher pulled job 1 from the FIFO. -/
def tr3 : SysState := { tr2 with dpc := .hasJob 1, fifo := [] }

/-- Job 1 marked `processing` at progress 10. -/
def tr4 : SysState :=
  { tr3 with dpc := .marked 1, jobs := [markUpdate traceJob] }

/-- State after `active_jobs` is incremented and the worker task spawned. -/
def tr5 : SysState :=
  { tr4 with
      dpc := .loopHead
      activeJobs := 1
      jobs := [spawnUpdate (markUpdate traceJob)] }

/-- Worker passed the ban re-check and invoked the conversion. -/
def tr6 : SysState :=
  { tr5 with jobs := [convertStartUpdate (spawnUpdate (markUpdate traceJob))] }

/-- Conversion succeeded with output `a_converted.pdf`. -/
def tr7 : SysState :=
  { tr6 with
      jobs := [successUpdate "a_converted.pdf"
        (convertStartUpdate (spawnUpdate (markUpdate traceJob)))] }

/-- The worker's `finally` decremented `active_jobs`. -/
def tr8 : SysState :=
  { tr7 with
      activeJobs := 0
      jobs := [decrementUpdate (successUpdate "a_converted.pdf"
        (convertStartUpdate (spawnUpdate (markUpdate traceJob))))] }

/-- The worker's `finally` removed the input file. -/
def tr9 : SysState :=
  { tr8 with
      jobs := [cleanupUpdate (decrementUpdate (successUpdate "a_converted.pdf"
        (convertStartUpdate (spawnUpdate (markUpdate traceJob)))))] }

/-- The finished job of the example run. -/
def traceDoneJob : JState :=
  cleanupUpdate (decrementUpdate (successUpdate "a_converted.pdf"
    (convertStartUpdate (spawnUpdate (markUpdate traceJob)))))

/-- Variant: user 1 is banned right after the worker is spawned (`tr5`). -/
def cexBan6 : SysState :=
  { tr5 with banned := fun v => if v = 1 then true else tr5.banned v }

/-- The worker's ban re-check then fails the job through the generic
`except` handler. -/
def cexBanState : SysState :=
  { cexBan6 with jobs := [workerBanUpdate (spawnUpdate (markUpdate traceJob))] }

/-- The worker-start ban-detected job. -/
def cexBanJob : JState := workerBanUpdate (spawnUpdate (markUpdate traceJob))

/-! ## General list helpers -/

theorem contains_iff_mem {l : List String} {x : String} :
    l.contains x = true ↔ x ∈ l := by
  simp [List.contains, List.elem_iff]

theorem countP_le_add_of_imp {α : Type} (l : List α) (p q r : α → Bool)
    (h : ∀ a ∈ l, p a = true → q a = true ∨ r a = true) :
    l.countP p ≤ l.countP q + l.countP r := by
  induction l with
  | nil => simp
  | cons a t ih =>
    have ht := ih (fun x hx => h x (List.mem_cons_of_mem a hx))
    rw [List.countP_cons, List.countP_cons, List.countP_cons]
    by_cases hp : p a = true
    · rw [if_pos hp]
      rcases h a (List.mem_cons_self a t) hp with hq | hr
      · rw [if_pos hq]; split <;> omega
      · rw [if_pos hr]; split <;> omega
    · rw [if_neg hp]
      split <;> split <;> omega

theorem countP_id_le_one {jobs : List JState} (h : (jobs.map (fun j => j.id)).Nodup)
    (i : Nat) : jobs.countP (fun j => j.id == i) ≤ 1 := by
  induction jobs with
  | nil => simp
  | cons a t ih =>
    rw [List.map_cons, List.nodup_cons] at h
    rw [List.countP_cons]
    by_cases ha : a.id = i
    · have h0 : t.countP (fun j => j.id == i) = 0 := by
        rw [List.countP_eq_zero]
        intro j hj hji
        rw [beq_iff_eq] at hji
        exact h.1 (by rw [ha, ← hji]; exact List.mem_map_of_mem _ hj)
      simp [h0, ha]
    · have := ih h.2
      simp only [beq_iff_eq, if_neg ha]
      omega

theorem id_unique {jobs : List JState} (h : (jobs.map (fun j => j.id)).Nodup)
    {a b : JState} (ha : a ∈ jobs) (hb : b ∈ jobs) (hid : a.id = b.id) : a = b :=
  List.inj_on_of_nodup_map h ha hb hid

theorem findJob_some {jobs : List JState} {i : Nat} {j : JState}
    (h : findJob jobs i = some j) : j ∈ jobs ∧ j.id = i := by
  refine ⟨List.mem_of_find?_eq_some h, ?_⟩
  have := List.find?_some h
  simpa using this

/-! ## `updJob` helpers -/

theorem updJob_map_id (jobs : List JState) (i : Nat) (f : JState → JState)
    (hf : ∀ j, (f j).id = j.id) :
    (updJob jobs i f).map (fun j => j.id) = jobs.map (fun j => j.id) := by
  unfold updJob
  rw [List.map_map]
  apply List.map_congr_left
  intro j _
  by_cases h : j.id = i <;> simp [h, hf]

theorem mem_updJob_of_ne {jobs : List JState} {i : Nat} {f : JState → JState}
    {j : JState} (hj : j ∈ jobs) (hne : j.id ≠ i) : j ∈ updJob jobs i f := by
  unfold updJob
  have := List.mem_map_of_mem (fun j => if j.id = i then f j else j) hj
  simpa [hne] using this

theorem mem_updJob_self {jobs : List JState} {i : Nat} {f : JState → JState}
    {j : JState} (hj : j ∈ jobs) (hid : j.id = i) : f j ∈ updJob jobs i f := by
  unfold updJob
  have := List.mem_map_of_mem (fun j => if j.id = i then f j else j) hj
  simpa [hid] using this

theorem mem_updJob {jobs : List JState} {i : Nat} {f : JState → JState}
    {j' : JState} (h : j' ∈ updJob jobs i f) :
    (∃ j ∈ jobs, j.id = i ∧ j' = f j) ∨ (j' ∈ jobs ∧ j'.id ≠ i) := by
  unfold updJob at h
  rcases List.mem_map.mp h with ⟨j, hj, hj'⟩
  by_cases hid : j.id = i
  · exact .inl ⟨j, hj, hid, by rw [← hj', if_pos hid]⟩
  · right
    rw [if_neg hid] at hj'
    exact hj' ▸ ⟨hj, hid⟩

theorem countP_updJob {jobs : List JState} {i : Nat} {j : JState} (f : JState → JState)
    (p : JState → Bool)
    (hnd : (jobs.map (fun j => j.id)).Nodup) (hj : j ∈ jobs) (hid : j.id = i) :
    (updJob jobs i f).countP p + (if p j then 1 else 0)
      = jobs.countP p + (if p (f j) then 1 else 0) := by
  induction jobs with
  | nil => cases hj
  | cons a t ih =>
    rw [List.map_cons, List.nodup_cons] at hnd
    rcases List.mem_cons.mp hj with rfl | hjt
    · have ht : updJob t i f = t := by
        unfold updJob
        have : ∀ x ∈ t, (if x.id = i then f x else x) = x := by
          intro x hx
          have hxne : x.id ≠ i := by
            intro hxe
            exact hnd.1 (by rw [hid, ← hxe]; exact List.mem_map_of_mem _ hx)
          simp [hxne]
        rw [List.map_congr_left this]
        simp
      have hupd : updJob (j :: t) i f = f j :: t := by
        unfold updJob
        rw [List.map_cons]
        unfold updJob at ht
        rw [if_pos hid, ht]
      rw [hupd, List.countP_cons, List.countP_cons]
      omega
    · have hane : a.id ≠ i := by
        intro hae
        exact hnd.1 (by rw [hae, ← hid]; exact List.mem_map_of_mem _ hjt)
      have hupd : updJob (a :: t) i f = a :: updJob t i f := by
        unfold updJob
        rw [List.map_cons, if_neg hane]
      rw [hupd, List.countP_cons, List.countP_cons]
      have := ih hnd.2 hjt
      omega

/-! ## Invariant transport helpers -/

theorem forall_updJob_of {jobs : List JState} {i : Nat} {f : JState → JState}
    {P : JState → Prop}
    (hall : ∀ j ∈ jobs, P j) (hupd : ∀ j ∈ jobs, j.id = i → P j → P (f j)) :
    ∀ j' ∈ updJob jobs i f, P j' := by
  intro j' hj'
  rcases mem_updJob hj' with ⟨j, hj, hid, rfl⟩ | ⟨hmem, _⟩
  · exact hupd j hj hid (hall j hj)
  · exact hall _ hmem

theorem banDetected_none_of_not_failed {j : JState} (hb : BanFacts j)
    (hs : j.status ≠ .failed) : j.banDetected = none := by
  cases hbd : j.banDetected with
  | none => rfl
  | some p => exact absurd (hb.1 p hbd).1 hs

theorem not_marked_self {s : SysState} (inv : Inv s) {j : JState} (hj : j ∈ s.jobs)
    (hphase : j.phase ≠ none) : s.dpc ≠ .marked j.id := by
  intro hdpc
  obtain ⟨j', hj', hid, hph⟩ := inv.markedWit _ hdpc
  have hjj : j' = j := id_unique inv.idsNodup hj' hj hid
  exact hphase (hjj ▸ hph)

theorem not_in_fifo_of_phase {s : SysState} (inv : Inv s) {j : JState} (hj : j ∈ s.jobs)
    (hphase : j.phase ≠ none) : j.id ∉ s.fifo := by
  intro hf
  obtain ⟨j', hj', hid, hph, _⟩ := inv.fifoWit _ hf
  have hjj : j' = j := id_unique inv.idsNodup hj' hj hid
  exact hphase (hjj ▸ hph)

theorem fifoWit_updJob {s : SysState} (inv : Inv s) {i : Nat} {f : JState → JState}
    (hni : i ∉ s.fifo) :
    ∀ i' ∈ s.fifo,
      ∃ j ∈ updJob s.jobs i f, j.id = i' ∧ j.phase = none ∧ j.status = .queued := by
  intro i' hi'
  obtain ⟨j, hj, hid, hph, hst⟩ := inv.fifoWit i' hi'
  refine ⟨j, mem_updJob_of_ne hj ?_, hid, hph, hst⟩
  intro h
  exact hni (by rw [← h, hid]; exact hi')

theorem wit_preserved {s : SysState} (inv : Inv s) {i : Nat} (f : JState → JState)
    {j : JState} (hj : j ∈ s.jobs) (hid : j.id = i) (hphase : j.phase ≠ none)
    {j' : JState} (hj' : j' ∈ s.jobs) (hph' : j'.phase = none) :
    j' ∈ updJob s.jobs i f := by
  refine mem_updJob_of_ne hj' ?_
  intro hii
  have hjj : j' = j := id_unique inv.idsNodup hj' hj (hii.trans hid.symm)
  rw [hjj] at hph'
  exact hphase hph'

theorem procIff_carry {s : SysState} (inv : Inv s) {d : DPC}
    (hd : ∀ i, d = .marked i ↔ s.dpc = .marked i) :
    ∀ j ∈ s.jobs, (j.status = .processing ↔
      (j.phase = some .started ∨ j.phase = some .converting ∨ d = .marked j.id)) := by
  intro j hj
  rw [hd j.id]
  exact inv.procIff j hj

theorem procIff_updJob_newdpc {s : SysState} (inv : Inv s) {i : Nat} {f : JState → JState}
    (hnm : ∀ k, s.dpc ≠ .marked k) {d' : DPC} (hd' : ∀ k, d' ≠ .marked k)
    (hf : ∀ j ∈ s.jobs, j.id = i →
      ((f j).status = .processing ↔
        ((f j).phase = some .started ∨ (f j).phase = some .converting))) :
    ∀ j' ∈ updJob s.jobs i f,
      (j'.status = .processing ↔
        (j'.phase = some .started ∨ j'.phase = some .converting ∨ d' = .marked j'.id)) := by
  intro j' hj'
  rcases mem_updJob hj' with ⟨j₂, hj₂, hid₂, rfl⟩ | ⟨hmem, _⟩
  · have hiff := hf j₂ hj₂ hid₂
    constructor
    · intro h
      rcases hiff.mp h with h | h
      exacts [.inl h, .inr (.inl h)]
    · rintro (h | h | h)
      exacts [hiff.mpr (.inl h), hiff.mpr (.inr h), absurd h (hd' _)]
  · have hold := inv.procIff _ hmem
    constructor
    · intro h
      rcases hold.mp h with h | h | h
      exacts [.inl h, .inr (.inl h), absurd h (hnm _)]
    · rintro (h | h | h)
      exacts [hold.mpr (.inl h), hold.mpr (.inr (.inl h)), absurd h (hd' _)]

theorem procIff_updJob_samedpc {s : SysState} (inv : Inv s) {i : Nat} {f : JState → JState}
    {j : JState} (hj : j ∈ s.jobs) (hid : j.id = i) (hphase : j.phase ≠ none)
    (hfid : (f j).id = j.id)
    (hiff : (f j).status = .processing ↔
      ((f j).phase = some .started ∨ (f j).phase = some .converting)) :
    ∀ j' ∈ updJob s.jobs i f,
      (j'.status = .processing ↔
        (j'.phase = some .started ∨ j'.phase = some .converting ∨ s.dpc = .marked j'.id)) := by
  intro j' hj'
  rcases mem_updJob hj' with ⟨j₂, hj₂, hid₂, rfl⟩ | ⟨hmem, _⟩
  · have hj₂j : j₂ = j := id_unique inv.idsNodup hj₂ hj (hid₂.trans hid.symm)
    subst hj₂j
    have hnm : s.dpc ≠ .marked (f j₂).id := by
      rw [hfid]
      exact not_marked_self inv hj₂ hphase
    constructor
    · intro h
      rcases hiff.mp h with h | h
      exacts [.inl h, .inr (.inl h)]
    · rintro (h | h | h)
      exacts [hiff.mpr (.inl h), hiff.mpr (.inr h), absurd h hnm]
  · exact inv.procIff _ hmem

theorem countP_updJob_eq {s : SysState} (inv : Inv s) {i : Nat} {j : JState}
    (f : JState → JState) (hj : j ∈ s.jobs) (hid : j.id = i)
    (h1 : inFlightB (f j) = inFlightB j) :
    (updJob s.jobs i f).countP inFlightB = s.jobs.countP inFlightB := by
  have h := countP_updJob f inFlightB inv.idsNodup hj hid
  rw [h1] at h
  omega

theorem countP_updJob_succ {s : SysState} (inv : Inv s) {i : Nat} {j : JState}
    (f : JState → JState) (hj : j ∈ s.jobs) (hid : j.id = i)
    (h0 : inFlightB j = false) (h1 : inFlightB (f j) = true) :
    (updJob s.jobs i f).countP inFlightB = s.jobs.countP inFlightB + 1 := by
  have h := countP_updJob f inFlightB inv.idsNodup hj hid
  rw [h0, h1] at h
  simp at h
  omega

theorem countP_updJob_pred {s : SysState} (inv : Inv s) {i : Nat} {j : JState}
    (f : JState → JState) (hj : j ∈ s.jobs) (hid : j.id = i)
    (h0 : inFlightB j = true) (h1 : inFlightB (f j) = false) :
    (updJob s.jobs i f).countP inFlightB + 1 = s.jobs.countP inFlightB := by
  have h := countP_updJob f inFlightB inv.idsNodup hj hid
  rw [h0, h1] at h
  simp at h
  omega

/-! ## Preservation of the invariant -/

theorem Inv.preserved {s s' : SysState} (inv : Inv s) (st : Step s s') : Inv s' := by
  cases st with
  | setBan u b =>
    exact ⟨inv.idsNodup, inv.idsFresh, inv.activeEq, inv.activeLe, inv.pastCheckLt,
      inv.procIff, inv.markedWit, inv.hasJobWit, inv.fifoWit, inv.progIff,
      inv.ledger, inv.banFacts, inv.banNotice, inv.timeoutEq, inv.pcNotInFifo,
      inv.fifoNodup⟩
  | dispatchCheck hdpc hlt =>
    refine ⟨inv.idsNodup, inv.idsFresh, inv.activeEq, inv.activeLe, fun _ => hlt,
      procIff_carry inv ?_, ?_, ?_, inv.fifoWit, inv.progIff,
      inv.ledger, inv.banFacts, inv.banNotice, inv.timeoutEq, ?_, inv.fifoNodup⟩
    · intro i
      rw [hdpc]
      simp
    · intro i h
      simp at h
    · intro i h
      simp at h
    · intro i h
      rcases h with h | h <;> simp at h
  | dispatchTimeout hdpc hfifo =>
    refine ⟨inv.idsNodup, inv.idsFresh, inv.activeEq, inv.activeLe, fun h => h.elim,
      procIff_carry inv ?_, ?_, ?_, inv.fifoWit, inv.progIff,
      inv.ledger, inv.banFacts, inv.banNotice, inv.timeoutEq, ?_, inv.fifoNodup⟩
    · intro i
      rw [hdpc]
      simp
    · intro i h
      simp at h
    · intro i h
      simp at h
    · intro i h
      rcases h with h | h <;> simp at h
  | dispatchGet i rest hdpc hfifo =>
    have hfnodup := inv.fifoNodup
    rw [hfifo, List.nodup_cons] at hfnodup
    refine ⟨inv.idsNodup, inv.idsFresh, inv.activeEq, inv.activeLe,
      fun _ => inv.pastCheckLt (by rw [hdpc]; trivial),
      procIff_carry inv ?_, ?_, ?_, ?_, inv.progIff,
      inv.ledger, inv.banFacts, inv.banNotice, inv.timeoutEq, ?_, hfnodup.2⟩
    · intro i'
      rw [hdpc]
      simp
    · intro i' h
      simp at h
    · intro i' h
      have hii : i = i' := by simpa using h
      subst hii
      exact inv.fifoWit i (by rw [hfifo]; exact List.mem_cons_self i rest)
    · intro i' hi'
      exact inv.fifoWit i' (by rw [hfifo]; exact List.mem_cons_of_mem i hi')
    · intro i' h
      rcases h with h | h
      · have hii : i = i' := by simpa using h
        subst hii
        exact hfnodup.1
      · simp at h
  | enqueue u ip it of fs heq =>
    simp only [add_to_queue] at heq
    split at heq
    · simp at heq
    · injection heq with heq
      injection heq with h1 h2
      subst h1
      have hfresh : ∀ a ∈ s.jobs.map (fun j => j.id), a ≠ s.nextId := by
        intro a ha
        rcases List.mem_map.mp ha with ⟨j, hj, rfl⟩
        exact Nat.ne_of_lt (inv.idsFresh j hj)
      have hmarknot : ∀ k, s.dpc = .marked k → k ≠ s.nextId := by
        intro k hk
        obtain ⟨j', hj', hid, -⟩ := inv.markedWit _ hk
        rw [← hid]
        exact Nat.ne_of_lt (inv.idsFresh j' hj')
      refine ⟨?_, ?_, ?_, inv.activeLe, inv.pastCheckLt, ?_, ?_, ?_, ?_, ?_, ?_, ?_, ?_, ?_, ?_, ?_⟩
      · rw [List.map_append, List.nodup_append]
        refine ⟨inv.idsNodup, by simp, ?_⟩
        intro a ha
        simp only [List.map_cons, List.map_nil, List.mem_singleton]
        intro hmem
        exact hfresh a ha (by simpa [newJob] using hmem)
      · intro j hj
        rcases List.mem_append.mp hj with hjl | hjr
        · exact Nat.lt_succ_of_lt (inv.idsFresh j hjl)
        · have : j = newJob s u ip it of fs (get_queued_jobs_count s.jobs + 1) := by
            simpa using hjr
          subst this
          simp [newJob]
      · rw [List.countP_append]
        have : List.countP inFlightB [newJob s u ip it of fs (get_queued_jobs_count s.jobs + 1)] = 0 := by
          simp [newJob, inFlightB]
        rw [this, Nat.add_zero]
        exact inv.activeEq
      · intro j hj
        rcases List.mem_append.mp hj with hjl | hjr
        · exact inv.procIff j hjl
        · have hje : j = newJob s u ip it of fs (get_queued_jobs_count s.jobs + 1) := by
            simpa using hjr
          subst hje
          constructor
          · intro h
            simp [newJob] at h
          · rintro (h | h | h)
            · simp [newJob] at h
            · simp [newJob] at h
            · exfalso
              exact hmarknot _ h rfl
      · intro i h
        obtain ⟨j', hj', hid, hph⟩ := inv.markedWit i h
        exact ⟨j', List.mem_append_left _ hj', hid, hph⟩
      · intro i h
        obtain ⟨j', hj', hid, hph, hst⟩ := inv.hasJobWit i h
        exact ⟨j', List.mem_append_left _ hj', hid, hph, hst⟩
      · intro i hi
        rcases List.mem_append.mp hi with hif | hin
        · obtain ⟨j', hj', hid, hph, hst⟩ := inv.fifoWit i hif
          exact ⟨j', List.mem_append_left _ hj', hid, hph, hst⟩
        · have : i = s.nextId := by simpa using hin
          subst this
          exact ⟨newJob s u ip it of fs (get_queued_jobs_count s.jobs + 1),
            List.mem_append_right _ (by simp), by simp [newJob], by simp [newJob],
            by simp [newJob]⟩
      · intro j hj
        rcases List.mem_append.mp hj with hjl | hjr
        · exact inv.progIff j hjl
        · have hje : j = newJob s u ip it of fs (get_queued_jobs_count s.jobs + 1) := by
            simpa using hjr
          subst hje
          constructor
          · intro h
            simp [newJob] at h
          · intro h
            simp [newJob] at h
      · intro j hj
        rcases List.mem_append.mp hj with hjl | hjr
        · exact inv.ledger j hjl
        · have hje : j = newJob s u ip it of fs (get_queued_jobs_count s.jobs + 1) := by
            simpa using hjr
          subst hje
          exact ⟨fun _ => rfl, by simp [newJob], by simp [newJob], fun _ => rfl⟩
      · intro j hj
        rcases List.mem_append.mp hj with hjl | hjr
        · exact inv.banFacts j hjl
        · have hje : j = newJob s u ip it of fs (get_queued_jobs_count s.jobs + 1) := by
            simpa using hjr
          subst hje
          exact ⟨by simp [newJob], by simp [newJob], by simp [newJob]⟩
      · intro j hj
        rcases List.mem_append.mp hj with hjl | hjr
        · exact inv.banNotice j hjl
        · have hje : j = newJob s u ip it of fs (get_queued_jobs_count s.jobs + 1) := by
            simpa using hjr
          subst hje
          intro h
          simp [newJob] at h
      · intro j hj t ht
        rcases List.mem_append.mp hj with hjl | hjr
        · exact inv.timeoutEq j hjl t ht
        · have hje : j = newJob s u ip it of fs (get_queued_jobs_count s.jobs + 1) := by
            simpa using hjr
          subst hje
          simp [newJob] at ht
      · intro i h
        have hold := inv.pcNotInFifo i h
        have hne : i ≠ s.nextId := by
          rcases h with h | h
          · obtain ⟨j', hj', hid, -⟩ := inv.hasJobWit i h
            rw [← hid]
            exact Nat.ne_of_lt (inv.idsFresh j' hj')
          · exact hmarknot i h
        intro hmem
        rcases List.mem_append.mp hmem with hm | hm
        · exact hold hm
        · exact hne (by simpa using hm)
      · rw [List.nodup_append]
        refine ⟨inv.fifoNodup, by simp, ?_⟩
        intro a ha
        simp only [List.mem_singleton]
        intro hmem
        obtain ⟨j', hj', hid, -⟩ := inv.fifoWit a ha
        have hlt := inv.idsFresh j' hj'
        rw [hid, hmem] at hlt
        exact Nat.lt_irrefl _ hlt
  | dispatchBanned i j hdpc hfind hban =>
    obtain ⟨hj, hid⟩ := findJob_some hfind
    obtain ⟨j₀, hj₀, hid₀, hph₀, hst₀⟩ := inv.hasJobWit i hdpc
    have hj₀j : j₀ = j := id_unique inv.idsNodup hj₀ hj (hid₀.trans hid.symm)
    subst hj₀j
    refine ⟨?_, forall_updJob_of inv.idsFresh (fun _ _ _ hP => hP), ?_, inv.activeLe,
      fun h => h.elim, procIff_updJob_newdpc inv ?_ ?_ ?_, ?_, ?_,
      fifoWit_updJob inv (inv.pcNotInFifo i (.inl hdpc)), ?_, ?_, ?_, ?_,
      forall_updJob_of inv.timeoutEq (fun _ _ _ hP => hP), ?_, inv.fifoNodup⟩
    · rw [updJob_map_id s.jobs i banPullUpdate (fun _ => rfl)]
      exact inv.idsNodup
    · rw [countP_updJob_eq inv banPullUpdate hj hid rfl]
      exact inv.activeEq
    · intro k hk
      rw [hdpc] at hk
      simp at hk
    · intro k hk
      simp at hk
    · intro j₂ hj₂ hid₂
      have hj₂j : j₂ = j₀ := id_unique inv.idsNodup hj₂ hj₀ (hid₂.trans hid₀.symm)
      subst hj₂j
      constructor
      · intro h
        simp [banPullUpdate] at h
      · rintro (h | h) <;> simp [banPullUpdate, hph₀] at h
    · intro k h
      simp at h
    · intro k h
      simp at h
    · refine forall_updJob_of inv.progIff ?_
      intro j₂ hj₂ hid₂ hP
      have hj₂j : j₂ = j₀ := id_unique inv.idsNodup hj₂ hj₀ (hid₂.trans hid₀.symm)
      subst hj₂j
      constructor
      · intro h
        have hc := hP.mp (by simpa [banPullUpdate] using h)
        rw [hst₀] at hc
        simp at hc
      · intro h
        simp [banPullUpdate] at h
    · refine forall_updJob_of inv.ledger ?_
      intro j₂ _ _ hP
      exact ⟨hP.1, hP.2.1, fun _ => rfl, hP.2.2.2⟩
    · refine forall_updJob_of inv.banFacts ?_
      intro j₂ hj₂ hid₂ hP
      have hj₂j : j₂ = j₀ := id_unique inv.idsNodup hj₂ hj₀ (hid₂.trans hid₀.symm)
      subst hj₂j
      refine ⟨?_, ?_, ?_⟩
      · intro p _
        exact ⟨rfl, (inv.ledger j₂ hj₂).2.2.2 (Or.inl hph₀)⟩
      · intro _
        simp [banPullUpdate]
      · intro h
        simp [banPullUpdate] at h
    · refine forall_updJob_of inv.banNotice ?_
      intro j₂ _ _ _ _
      rfl
    · intro k h
      rcases h with h | h <;> simp at h
  | dispatchMark i j hdpc hfind hban =>
    obtain ⟨hj, hid⟩ := findJob_some hfind
    obtain ⟨j₀, hj₀, hid₀, hph₀, hst₀⟩ := inv.hasJobWit i hdpc
    have hj₀j : j₀ = j := id_unique inv.idsNodup hj₀ hj (hid₀.trans hid.symm)
    subst hj₀j
    refine ⟨?_, forall_updJob_of inv.idsFresh (fun _ _ _ hP => hP), ?_, inv.activeLe,
      fun _ => inv.pastCheckLt (by rw [hdpc]; trivial), ?_, ?_, ?_,
      fifoWit_updJob inv (inv.pcNotInFifo i (.inl hdpc)), ?_,
      forall_updJob_of inv.ledger (fun _ _ _ hP => hP), ?_,
      forall_updJob_of inv.banNotice (fun _ _ _ hP => hP),
      forall_updJob_of inv.timeoutEq (fun _ _ _ hP => hP), ?_, inv.fifoNodup⟩
    · rw [updJob_map_id s.jobs i markUpdate (fun _ => rfl)]
      exact inv.idsNodup
    · rw [countP_updJob_eq inv markUpdate hj hid rfl]
      exact inv.activeEq
    · intro j' hj'
      rcases mem_updJob hj' with ⟨j₂, hj₂, hid₂, rfl⟩ | ⟨hmem, hne⟩
      · have hj₂j : j₂ = j₀ := id_unique inv.idsNodup hj₂ hj₀ (hid₂.trans hid₀.symm)
        subst hj₂j
        constructor
        · intro _
          right; right
          show DPC.marked i = DPC.marked (markUpdate j₂).id
          have : (markUpdate j₂).id = i := hid₂
          rw [this]
        · intro _
          rfl
      · have hold := inv.procIff _ hmem
        rw [hdpc] at hold
        constructor
        · intro h
          rcases hold.mp h with h' | h' | h'
          exacts [.inl h', .inr (.inl h'), by simp at h']
        · rintro (h | h | h)
          · exact hold.mpr (.inl h)
          · exact hold.mpr (.inr (.inl h))
          · exfalso
            have hik : i = j'.id := by injection h
            exact hne hik.symm
    · intro k h
      have hik : i = k := by injection h
      subst hik
      exact ⟨markUpdate j₀, mem_updJob_self hj hid, hid, hph₀⟩
    · intro k h
      simp at h
    · refine forall_updJob_of inv.progIff ?_
      intro j₂ _ _ _
      constructor
      · intro h
        simp [markUpdate] at h
      · intro h
        simp [markUpdate] at h
    · refine forall_updJob_of inv.banFacts ?_
      intro j₂ hj₂ hid₂ hP
      have hj₂j : j₂ = j₀ := id_unique inv.idsNodup hj₂ hj₀ (hid₂.trans hid₀.symm)
      subst hj₂j
      have hbd : j₂.banDetected = none :=
        banDetected_none_of_not_failed hP (by rw [hst₀]; simp)
      refine ⟨fun p hp => ?_, fun hp => ?_, fun hp => ?_⟩ <;>
        · rw [show (markUpdate j₂).banDetected = j₂.banDetected from rfl, hbd] at hp
          simp at hp
    · intro k h
      rcases h with h | h
      · simp at h
      · have hik : i = k := by injection h
        subst hik
        exact inv.pcNotInFifo i (.inl hdpc)
  | dispatchSpawn i hdpc =>
    obtain ⟨j₀, hj₀, hid₀, hph₀⟩ := inv.markedWit i hdpc
    have hst₀ : j₀.status = .processing := by
      refine (inv.procIff j₀ hj₀).mpr (.inr (.inr ?_))
      rw [hdpc, hid₀]
    have hlt : s.activeJobs < MAX_CONCURRENT_JOBS := inv.pastCheckLt (by rw [hdpc]; trivial)
    refine ⟨?_, forall_updJob_of inv.idsFresh (fun _ _ _ hP => hP), ?_, ?_,
      fun h => h.elim, ?_, ?_, ?_,
      fifoWit_updJob inv (inv.pcNotInFifo i (.inr hdpc)),
      forall_updJob_of inv.progIff (fun _ _ _ hP => hP), ?_,
      forall_updJob_of inv.banFacts (fun _ _ _ hP => hP),
      forall_updJob_of inv.banNotice (fun _ _ _ hP => hP),
      forall_updJob_of inv.timeoutEq (fun _ _ _ hP => hP), ?_, inv.fifoNodup⟩
    · rw [updJob_map_id s.jobs i spawnUpdate (fun _ => rfl)]
      exact inv.idsNodup
    · rw [countP_updJob_succ inv spawnUpdate hj₀ hid₀
        (by simp [inFlightB, hph₀]) (by simp [inFlightB, spawnUpdate])]
      rw [inv.activeEq]
    · show s.activeJobs + 1 ≤ MAX_CONCURRENT_JOBS
      omega
    · intro j' hj'
      rcases mem_updJob hj' with ⟨j₂, hj₂, hid₂, rfl⟩ | ⟨hmem, hne⟩
      · have hj₂j : j₂ = j₀ := id_unique inv.idsNodup hj₂ hj₀ (hid₂.trans hid₀.symm)
        subst hj₂j
        constructor
        · intro _
          exact .inl rfl
        · intro _
          exact hst₀
      · have hold := inv.procIff _ hmem
        rw [hdpc] at hold
        constructor
        · intro h
          rcases hold.mp h with h' | h' | h'
          · exact .inl h'
          · exact .inr (.inl h')
          · exfalso
            have hik : i = j'.id := by injection h'
            exact hne hik.symm
        · rintro (h | h | h)
          · exact hold.mpr (.inl h)
          · exact hold.mpr (.inr (.inl h))
          · simp at h
    · intro k h
      simp at h
    · intro k h
      simp at h
    · refine forall_updJob_of inv.ledger ?_
      intro j₂ hj₂ hid₂ hP
      have hj₂j : j₂ = j₀ := id_unique inv.idsNodup hj₂ hj₀ (hid₂.trans hid₀.symm)
      subst hj₂j
      refine ⟨fun _ => hP.1 (Or.inl hph₀), fun h => ?_, fun h => ?_,
        fun _ => hP.2.2.2 (Or.inl hph₀)⟩
      · rcases h with h | h <;> simp [spawnUpdate] at h
      · simp [spawnUpdate] at h
    · intro k h
      rcases h with h | h <;> simp at h
  | workerBanned i j hfind hphase hban =>
    obtain ⟨hj, hid⟩ := findJob_some hfind
    have hphn : j.phase ≠ none := by rw [hphase]; simp
    have hst : j.status = .processing := (inv.procIff j hj).mpr (.inl hphase)
    have hbd : j.banDetected = none :=
      banDetected_none_of_not_failed (inv.banFacts j hj) (by rw [hst]; simp)
    have hnb : Notice.ban ∉ j.notices := by
      intro h
      have hc := inv.banNotice j hj h
      rw [hbd] at hc
      simp at hc
    refine ⟨?_, forall_updJob_of inv.idsFresh (fun _ _ _ hP => hP), ?_, inv.activeLe,
      inv.pastCheckLt,
      procIff_updJob_samedpc inv hj hid hphn rfl ?_, ?_, ?_,
      fifoWit_updJob inv (by rw [← hid]; exact not_in_fifo_of_phase inv hj hphn),
      ?_, ?_, ?_, ?_,
      forall_updJob_of inv.timeoutEq (fun _ _ _ hP => hP), inv.pcNotInFifo,
      inv.fifoNodup⟩
    · rw [updJob_map_id s.jobs i workerBanUpdate (fun _ => rfl)]
      exact inv.idsNodup
    · rw [countP_updJob_eq inv workerBanUpdate hj hid
        (by simp [inFlightB, workerBanUpdate, hphase])]
      exact inv.activeEq
    · constructor
      · intro h
        simp [workerBanUpdate] at h
      · rintro (h | h) <;> simp [workerBanUpdate] at h
    · intro k hk
      obtain ⟨j', hj', hid', hph'⟩ := inv.markedWit k hk
      exact ⟨j', wit_preserved inv _ hj hid hphn hj' hph', hid', hph'⟩
    · intro k hk
      obtain ⟨j', hj', hid', hph', hst'⟩ := inv.hasJobWit k hk
      exact ⟨j', wit_preserved inv _ hj hid hphn hj' hph', hid', hph', hst'⟩
    · refine forall_updJob_of inv.progIff ?_
      intro j₂ hj₂ hid₂ hP
      have hj₂j : j₂ = j := id_unique inv.idsNodup hj₂ hj (hid₂.trans hid.symm)
      subst hj₂j
      constructor
      · intro h
        have hc := hP.mp (by simpa [workerBanUpdate] using h)
        rw [hst] at hc
        simp at hc
      · intro h
        simp [workerBanUpdate] at h
    · refine forall_updJob_of inv.ledger ?_
      intro j₂ hj₂ hid₂ hP
      have hj₂j : j₂ = j := id_unique inv.idsNodup hj₂ hj (hid₂.trans hid.symm)
      subst hj₂j
      refine ⟨fun _ => hP.1 (Or.inr (Or.inl hphase)), fun h => ?_, fun h => ?_,
        fun h => ?_⟩
      · rcases h with h | h <;> simp [workerBanUpdate] at h
      · simp [workerBanUpdate] at h
      · rcases h with h | h <;> simp [workerBanUpdate] at h
    · refine forall_updJob_of inv.banFacts ?_
      intro j₂ hj₂ hid₂ hP
      have hj₂j : j₂ = j := id_unique inv.idsNodup hj₂ hj (hid₂.trans hid.symm)
      subst hj₂j
      refine ⟨fun p hp => ⟨rfl, (inv.ledger j₂ hj₂).2.2.2 (Or.inr hphase)⟩,
        fun hp => ?_, fun hp => ⟨?_, ?_⟩⟩
      · simp [workerBanUpdate] at hp
      · simp [workerBanUpdate]
      · intro hb
        simp [workerBanUpdate] at hb
        exact hnb hb
    · refine forall_updJob_of inv.banNotice ?_
      intro j₂ hj₂ hid₂ hP
      have hj₂j : j₂ = j := id_unique inv.idsNodup hj₂ hj (hid₂.trans hid.symm)
      subst hj₂j
      intro h
      simp [workerBanUpdate] at h
      exact absurd h hnb
  | workerConvertStart i j hfind hphase hban =>
    obtain ⟨hj, hid⟩ := findJob_some hfind
    have hphn : j.phase ≠ none := by rw [hphase]; simp
    have hst : j.status = .processing := (inv.procIff j hj).mpr (.inl hphase)
    have hbd : j.banDetected = none :=
      banDetected_none_of_not_failed (inv.banFacts j hj) (by rw [hst]; simp)
    have hnb : Notice.ban ∉ j.notices := by
      intro h
      have hc := inv.banNotice j hj h
      rw [hbd] at hc
      simp at hc
    refine ⟨?_, forall_updJob_of inv.idsFresh (fun _ _ _ hP => hP), ?_, inv.activeLe,
      inv.pastCheckLt,
      procIff_updJob_samedpc inv hj hid hphn rfl ?_, ?_, ?_,
      fifoWit_updJob inv (by rw [← hid]; exact not_in_fifo_of_phase inv hj hphn),
      forall_updJob_of inv.progIff (fun _ _ _ hP => hP), ?_, ?_, ?_, ?_,
      inv.pcNotInFifo, inv.fifoNodup⟩
    · rw [updJob_map_id s.jobs i convertStartUpdate (fun _ => rfl)]
      exact inv.idsNodup
    · rw [countP_updJob_eq inv convertStartUpdate hj hid
        (by simp [inFlightB, convertStartUpdate, hphase])]
      exact inv.activeEq
    · constructor
      · intro _
        exact .inr rfl
      · intro _
        exact hst
    · intro k hk
      obtain ⟨j', hj', hid', hph'⟩ := inv.markedWit k hk
      exact ⟨j', wit_preserved inv _ hj hid hphn hj' hph', hid', hph'⟩
    · intro k hk
      obtain ⟨j', hj', hid', hph', hst'⟩ := inv.hasJobWit k hk
      exact ⟨j', wit_preserved inv _ hj hid hphn hj' hph', hid', hph', hst'⟩
    · refine forall_updJob_of inv.ledger ?_
      intro j₂ hj₂ hid₂ hP
      have hj₂j : j₂ = j := id_unique inv.idsNodup hj₂ hj (hid₂.trans hid.symm)
      subst hj₂j
      refine ⟨fun _ => hP.1 (Or.inr (Or.inl hphase)), fun h => ?_, fun h => ?_,
        fun h => ?_⟩
      · rcases h with h | h <;> simp [convertStartUpdate] at h
      · simp [convertStartUpdate] at h
      · rcases h with h | h <;> simp [convertStartUpdate] at h
    · refine forall_updJob_of inv.banFacts ?_
      intro j₂ hj₂ hid₂ hP
      have hj₂j : j₂ = j := id_unique inv.idsNodup hj₂ hj (hid₂.trans hid.symm)
      subst hj₂j
      refine ⟨fun p hp => ?_, fun hp => ?_, fun hp => ?_⟩ <;>
        · rw [show (convertStartUpdate j₂).banDetected = j₂.banDetected from rfl, hbd] at hp
          simp at hp
    · refine forall_updJob_of inv.banNotice ?_
      intro j₂ hj₂ hid₂ hP
      have hj₂j : j₂ = j := id_unique inv.idsNodup hj₂ hj (hid₂.trans hid.symm)
      subst hj₂j
      intro h
      simp [convertStartUpdate] at h
      exact absurd h hnb
    · refine forall_updJob_of inv.timeoutEq ?_
      intro j₂ hj₂ hid₂ hP
      intro t ht
      rw [show (convertStartUpdate j₂).timeoutUsed
        = some (get_conversion_timeout (qm_get_file_category j₂.inputType)) from rfl] at ht
      injection ht with ht
      exact ht.symm
  | workerSuccess i j p hfind hphase =>
    obtain ⟨hj, hid⟩ := findJob_some hfind
    have hphn : j.phase ≠ none := by rw [hphase]; simp
    have hst : j.status = .processing := (inv.procIff j hj).mpr (.inr (.inl hphase))
    have hbd : j.banDetected = none :=
      banDetected_none_of_not_failed (inv.banFacts j hj) (by rw [hst]; simp)
    have hnb : Notice.ban ∉ j.notices := by
      intro h
      have hc := inv.banNotice j hj h
      rw [hbd] at hc
      simp at hc
    refine ⟨?_, forall_updJob_of inv.idsFresh (fun _ _ _ hP => hP), ?_, inv.activeLe,
      inv.pastCheckLt,
      procIff_updJob_samedpc inv hj hid hphn rfl ?_, ?_, ?_,
      fifoWit_updJob inv (by rw [← hid]; exact not_in_fifo_of_phase inv hj hphn),
      ?_, ?_, ?_, ?_,
      forall_updJob_of inv.timeoutEq (fun _ _ _ hP => hP), inv.pcNotInFifo,
      inv.fifoNodup⟩
    · rw [updJob_map_id s.jobs i (successUpdate p) (fun _ => rfl)]
      exact inv.idsNodup
    · rw [countP_updJob_eq inv (successUpdate p) hj hid
        (by simp [inFlightB, successUpdate, hphase])]
      exact inv.activeEq
    · constructor
      · intro h
        simp [successUpdate] at h
      · rintro (h | h) <;> simp [successUpdate] at h
    · intro k hk
      obtain ⟨j', hj', hid', hph'⟩ := inv.markedWit k hk
      exact ⟨j', wit_preserved inv _ hj hid hphn hj' hph', hid', hph'⟩
    · intro k hk
      obtain ⟨j', hj', hid', hph', hst'⟩ := inv.hasJobWit k hk
      exact ⟨j', wit_preserved inv _ hj hid hphn hj' hph', hid', hph', hst'⟩
    · refine forall_updJob_of inv.progIff ?_
      intro j₂ hj₂ hid₂ hP
      constructor
      · intro _
        rfl
      · intro _
        rfl
    · refine forall_updJob_of inv.ledger ?_
      intro j₂ hj₂ hid₂ hP
      have hj₂j : j₂ = j := id_unique inv.idsNodup hj₂ hj (hid₂.trans hid.symm)
      subst hj₂j
      refine ⟨fun _ => hP.1 (Or.inr (Or.inr (Or.inl hphase))), fun h => ?_,
        fun h => ?_, fun h => ?_⟩
      · rcases h with h | h <;> simp [successUpdate] at h
      · simp [successUpdate] at h
      · rcases h with h | h <;> simp [successUpdate] at h
    · refine forall_updJob_of inv.banFacts ?_
      intro j₂ hj₂ hid₂ hP
      have hj₂j : j₂ = j := id_unique inv.idsNodup hj₂ hj (hid₂.trans hid.symm)
      subst hj₂j
      refine ⟨fun q hp => ?_, fun hp => ?_, fun hp => ?_⟩ <;>
        · rw [show (successUpdate p j₂).banDetected = j₂.banDetected from rfl, hbd] at hp
          simp at hp
    · refine forall_updJob_of inv.banNotice ?_
      intro j₂ hj₂ hid₂ hP
      have hj₂j : j₂ = j := id_unique inv.idsNodup hj₂ hj (hid₂.trans hid.symm)
      subst hj₂j
      intro h
      simp [successUpdate] at h
      exact absurd h hnb
  | workerFailure i j m hfind hphase =>
    obtain ⟨hj, hid⟩ := findJob_some hfind
    have hphn : j.phase ≠ none := by rw [hphase]; simp
    have hst : j.status = .processing := (inv.procIff j hj).mpr (.inr (.inl hphase))
    have hbd : j.banDetected = none :=
      banDetected_none_of_not_failed (inv.banFacts j hj) (by rw [hst]; simp)
    have hnb : Notice.ban ∉ j.notices := by
      intro h
      have hc := inv.banNotice j hj h
      rw [hbd] at hc
      simp at hc
    refine ⟨?_, forall_updJob_of inv.idsFresh (fun _ _ _ hP => hP), ?_, inv.activeLe,
      inv.pastCheckLt,
      procIff_updJob_samedpc inv hj hid hphn rfl ?_, ?_, ?_,
      fifoWit_updJob inv (by rw [← hid]; exact not_in_fifo_of_phase inv hj hphn),
      ?_, ?_, ?_, ?_,
      forall_updJob_of inv.timeoutEq (fun _ _ _ hP => hP), inv.pcNotInFifo,
      inv.fifoNodup⟩
    · rw [updJob_map_id s.jobs i (failureUpdate m) (fun _ => rfl)]
      exact inv.idsNodup
    · rw [countP_updJob_eq inv (failureUpdate m) hj hid
        (by simp [inFlightB, failureUpdate, hphase])]
      exact inv.activeEq
    · constructor
      · intro h
        simp [failureUpdate] at h
      · rintro (h | h) <;> simp [failureUpdate] at h
    · intro k hk
      obtain ⟨j', hj', hid', hph'⟩ := inv.markedWit k hk
      exact ⟨j', wit_preserved inv _ hj hid hphn hj' hph', hid', hph'⟩
    · intro k hk
      obtain ⟨j', hj', hid', hph', hst'⟩ := inv.hasJobWit k hk
      exact ⟨j', wit_preserved inv _ hj hid hphn hj' hph', hid', hph', hst'⟩
    · refine forall_updJob_of inv.progIff ?_
      intro j₂ hj₂ hid₂ hP
      have hj₂j : j₂ = j := id_unique inv.idsNodup hj₂ hj (hid₂.trans hid.symm)
      subst hj₂j
      constructor
      · intro h
        have hc := hP.mp (by simpa [failureUpdate] using h)
        rw [hst] at hc
        simp at hc
      · intro h
        simp [failureUpdate] at h
    · refine forall_updJob_of inv.ledger ?_
      intro j₂ hj₂ hid₂ hP
      have hj₂j : j₂ = j := id_unique inv.idsNodup hj₂ hj (hid₂.trans hid.symm)
      subst hj₂j
      refine ⟨fun _ => hP.1 (Or.inr (Or.inr (Or.inl hphase))), fun h => ?_,
        fun h => ?_, fun h => ?_⟩
      · rcases h with h | h <;> simp [failureUpdate] at h
      · simp [failureUpdate] at h
      · rcases h with h | h <;> simp [failureUpdate] at h
    · refine forall_updJob_of inv.banFacts ?_
      intro j₂ hj₂ hid₂ hP
      have hj₂j : j₂ = j := id_unique inv.idsNodup hj₂ hj (hid₂.trans hid.symm)
      subst hj₂j
      refine ⟨fun q hp => ?_, fun hp => ?_, fun hp => ?_⟩ <;>
        · rw [show (failureUpdate m j₂).banDetected = j₂.banDetected from rfl, hbd] at hp
          simp at hp
    · refine forall_updJob_of inv.banNotice ?_
      intro j₂ hj₂ hid₂ hP
      have hj₂j : j₂ = j := id_unique inv.idsNodup hj₂ hj (hid₂.trans hid.symm)
      subst hj₂j
      intro h
      simp [failureUpdate] at h
      exact absurd h hnb
  | workerDecrement i j hfind hphase =>
    obtain ⟨hj, hid⟩ := findJob_some hfind
    have hphn : j.phase ≠ none := by rw [hphase]; simp
    have hstn : j.status ≠ .processing := by
      intro h
      rcases (inv.procIff j hj).mp h with h' | h' | h'
      · rw [hphase] at h'
        simp at h'
      · rw [hphase] at h'
        simp at h'
      · exact not_marked_self inv hj hphn h'
    have hpred := countP_updJob_pred inv decrementUpdate hj hid
      (by simp [inFlightB, hphase]) (by simp [inFlightB, decrementUpdate])
    have hae := inv.activeEq
    refine ⟨?_, forall_updJob_of inv.idsFresh (fun _ _ _ hP => hP), ?_, ?_, ?_,
      procIff_updJob_samedpc inv hj hid hphn rfl ?_, ?_, ?_,
      fifoWit_updJob inv (by rw [← hid]; exact not_in_fifo_of_phase inv hj hphn),
      forall_updJob_of inv.progIff (fun _ _ _ hP => hP), ?_,
      forall_updJob_of inv.banFacts (fun _ _ _ hP => hP),
      forall_updJob_of inv.banNotice (fun _ _ _ hP => hP),
      forall_updJob_of inv.timeoutEq (fun _ _ _ hP => hP), inv.pcNotInFifo,
      inv.fifoNodup⟩
    · rw [updJob_map_id s.jobs i decrementUpdate (fun _ => rfl)]
      exact inv.idsNodup
    · show s.activeJobs - 1 = (updJob s.jobs i decrementUpdate).countP inFlightB
      omega
    · show s.activeJobs - 1 ≤ MAX_CONCURRENT_JOBS
      have := inv.activeLe
      omega
    · intro h
      have := inv.pastCheckLt h
      show s.activeJobs - 1 < MAX_CONCURRENT_JOBS
      omega
    · constructor
      · intro h
        exact absurd h hstn
      · rintro (h | h) <;> simp [decrementUpdate] at h
    · intro k hk
      obtain ⟨j', hj', hid', hph'⟩ := inv.markedWit k hk
      exact ⟨j', wit_preserved inv _ hj hid hphn hj' hph', hid', hph'⟩
    · intro k hk
      obtain ⟨j', hj', hid', hph', hst'⟩ := inv.hasJobWit k hk
      exact ⟨j', wit_preserved inv _ hj hid hphn hj' hph', hid', hph', hst'⟩
    · refine forall_updJob_of inv.ledger ?_
      intro j₂ hj₂ hid₂ hP
      have hj₂j : j₂ = j := id_unique inv.idsNodup hj₂ hj (hid₂.trans hid.symm)
      subst hj₂j
      have h0 : j₂.decrements = 0 := hP.1 (Or.inr (Or.inr (Or.inr hphase)))
      refine ⟨fun h => ?_, fun _ => ?_, fun h => ?_, fun h => ?_⟩
      · rcases h with h | h | h | h <;> simp [decrementUpdate] at h
      · show j₂.decrements + 1 = 1
        omega
      · simp [decrementUpdate] at h
      · rcases h with h | h <;> simp [decrementUpdate] at h
  | workerCleanup i j hfind hphase =>
    obtain ⟨hj, hid⟩ := findJob_some hfind
    have hphn : j.phase ≠ none := by rw [hphase]; simp
    have hstn : j.status ≠ .processing := by
      intro h
      rcases (inv.procIff j hj).mp h with h' | h' | h'
      · rw [hphase] at h'
        simp at h'
      · rw [hphase] at h'
        simp at h'
      · exact not_marked_self inv hj hphn h'
    refine ⟨?_, forall_updJob_of inv.idsFresh (fun _ _ _ hP => hP), ?_, inv.activeLe,
      inv.pastCheckLt,
      procIff_updJob_samedpc inv hj hid hphn rfl ?_, ?_, ?_,
      fifoWit_updJob inv (by rw [← hid]; exact not_in_fifo_of_phase inv hj hphn),
      forall_updJob_of inv.progIff (fun _ _ _ hP => hP), ?_,
      forall_updJob_of inv.banFacts (fun _ _ _ hP => hP),
      forall_updJob_of inv.banNotice (fun _ _ _ hP => hP),
      forall_updJob_of inv.timeoutEq (fun _ _ _ hP => hP), inv.pcNotInFifo,
      inv.fifoNodup⟩
    · rw [updJob_map_id s.jobs i cleanupUpdate (fun _ => rfl)]
      exact inv.idsNodup
    · rw [countP_updJob_eq inv cleanupUpdate hj hid
        (by simp [inFlightB, cleanupUpdate, hphase]; rfl)]
      exact inv.activeEq
    · constructor
      · intro h
        exact absurd h hstn
      · rintro (h | h) <;> simp [cleanupUpdate] at h
    · intro k hk
      obtain ⟨j', hj', hid', hph'⟩ := inv.markedWit k hk
      exact ⟨j', wit_preserved inv _ hj hid hphn hj' hph', hid', hph'⟩
    · intro k hk
      obtain ⟨j', hj', hid', hph', hst'⟩ := inv.hasJobWit k hk
      exact ⟨j', wit_preserved inv _ hj hid hphn hj' hph', hid', hph', hst'⟩
    · refine forall_updJob_of inv.ledger ?_
      intro j₂ hj₂ hid₂ hP
      have hj₂j : j₂ = j := id_unique inv.idsNodup hj₂ hj (hid₂.trans hid.symm)
      subst hj₂j
      refine ⟨fun h => ?_, fun _ => hP.2.1 (Or.inl hphase), fun _ => rfl, fun h => ?_⟩
      · rcases h with h | h | h | h <;> simp [cleanupUpdate] at h
      · rcases h with h | h <;> simp [cleanupUpdate] at h

/-! ## Reachability facts -/

theorem reachable_inv {s : SysState} (h : Reachable s) : Inv s := by
  unfold Reachable at h
  induction h with
  | refl =>
    refine ⟨?_, ?_, rfl, ?_, fun h => h.elim, ?_, ?_, ?_, ?_, ?_, ?_, ?_, ?_, ?_, ?_, ?_⟩
    · simp [initState]
    · intro j hj
      simp [initState] at hj
    · simp [MAX_CONCURRENT_JOBS, initState]
    · intro j hj
      simp [initState] at hj
    · intro i h
      simp [initState] at h
    · intro i h
      simp [initState] at h
    · intro i h
      simp [initState] at h
    · intro j hj
      simp [initState] at hj
    · intro j hj
      simp [initState] at hj
    · intro j hj
      simp [initState] at hj
    · intro j hj
      simp [initState] at hj
    · intro j hj
      simp [initState] at hj
    · intro i h
      rcases h with h | h <;> simp [initState] at h
    · simp [initState]
  | tail hab hbc ih =>
    exact Inv.preserved ih hbc

theorem reach_tr1 : Reachable tr1 :=
  Relation.ReflTransGen.single (Step.enqueue 1 "a.png" "png" "pdf" 5 rfl)

theorem reach_tr5 : Reachable tr5 := by
  refine Relation.ReflTransGen.tail (Relation.ReflTransGen.tail
    (Relation.ReflTransGen.tail (Relation.ReflTransGen.tail reach_tr1
      (Step.dispatchCheck rfl (by decide))) (Step.dispatchGet 1 [] rfl rfl))
      (Step.dispatchMark 1 traceJob rfl rfl rfl)) (Step.dispatchSpawn 1 rfl)

theorem reach_tr9 : Reachable tr9 := by
  refine Relation.ReflTransGen.tail (Relation.ReflTransGen.tail
    (Relation.ReflTransGen.tail (Relation.ReflTransGen.tail reach_tr5
      (Step.workerConvertStart 1 (spawnUpdate (markUpdate traceJob)) rfl rfl rfl))
      (Step.workerSuccess 1 (convertStartUpdate (spawnUpdate (markUpdate traceJob)))
        "a_converted.pdf" rfl rfl))
      (Step.workerDecrement 1 (successUpdate "a_converted.pdf"
        (convertStartUpdate (spawnUpdate (markUpdate traceJob)))) rfl rfl))
      (Step.workerCleanup 1 (decrementUpdate (successUpdate "a_converted.pdf"
        (convertStartUpdate (spawnUpdate (markUpdate traceJob))))) rfl rfl)

theorem reach_cexBan : Reachable cexBanState := by
  refine Relation.ReflTransGen.tail (Relation.ReflTransGen.tail reach_tr5
    (Step.setBan 1 true)) ?_
  exact Step.workerBanned 1 (spawnUpdate (markUpdate traceJob)) rfl rfl rfl

/-! ## Helper facts for the claims -/

theorem qm_category_cases (ext : String) :
    qm_get_file_category ext ∈ ["image", "audio", "video", "document", "presentation"] := by
  simp only [qm_get_file_category]
  split
  · rename_i p hp
    have hmem := List.mem_of_find?_eq_some hp
    fin_cases hmem <;> simp
  · simp

theorem timeout_bounds (c : String)
    (hc : c ∈ ["image", "audio", "video", "document", "presentation"]) :
    get_conversion_timeout "image" ≤ get_conversion_timeout c ∧
    get_conversion_timeout c ≤ get_conversion_timeout "video" := by
  fin_cases hc <;> exact ⟨by decide, by decide⟩

/-! ## The claims -/

/-- C1: in every reachable state of the queue manager, the number of jobs in
`processing` status never exceeds `MAX_CONCURRENT_JOBS`: the dispatch loop
admits a job only after observing `active_jobs < MAX_CONCURRENT_JOBS` under
the job lock, increments `active_jobs` once per admitted job, and each
finished worker decrements it exactly once. -/
theorem concurrency_bound (s : SysState) (hs : Reachable s) :
    s.jobs.countP processingB ≤ MAX_CONCURRENT_JOBS := by
  have inv := reachable_inv hs
  have h1 : s.jobs.countP processingB
      ≤ s.jobs.countP runningB + s.jobs.countP (fun j => s.dpc == .marked j.id) := by
    apply countP_le_add_of_imp
    intro j hj hp
    have hps : j.status = .processing := by simpa [processingB] using hp
    rcases (inv.procIff j hj).mp hps with h | h | h
    · left
      simp [runningB, h]
    · left
      simp [runningB, h]
    · right
      simp [h]
  have h2 : s.jobs.countP runningB ≤ s.jobs.countP inFlightB := by
    apply List.countP_mono_left
    intro j _ hr
    simp [runningB] at hr
    rcases hr with h | h <;> simp [inFlightB, h]
  by_cases hm : ∃ k, s.dpc = .marked k
  · obtain ⟨k, hk⟩ := hm
    have hcnt : s.jobs.countP (fun j => s.dpc == .marked j.id) ≤ 1 := by
      calc s.jobs.countP (fun j => s.dpc == .marked j.id)
          ≤ s.jobs.countP (fun j => j.id == k) := by
            apply List.countP_mono_left
            intro j _ hp
            rw [hk] at hp
            have hkk : DPC.marked k = DPC.marked j.id := by simpa using hp
            have : k = j.id := by injection hkk
            simp [this]
        _ ≤ 1 := countP_id_le_one inv.idsNodup k
    have hact : s.activeJobs < MAX_CONCURRENT_JOBS := inv.pastCheckLt (by rw [hk]; trivial)
    have hae := inv.activeEq
    omega
  · have hz : s.jobs.countP (fun j => s.dpc == .marked j.id) = 0 := by
      rw [List.countP_eq_zero]
      intro j _ hp
      exact hm ⟨j.id, by simpa using hp⟩
    have hae := inv.activeEq
    have hle := inv.activeLe
    omega

/-- Witness for C1 at a concrete reachable state. -/
theorem concurrency_bound_witness :
    Reachable tr6 ∧ tr6.jobs.countP processingB ≤ MAX_CONCURRENT_JOBS :=
  ⟨Relation.ReflTransGen.tail reach_tr5
      (Step.workerConvertStart 1 (spawnUpdate (markUpdate traceJob)) rfl rfl rfl),
   concurrency_bound tr6 (Relation.ReflTransGen.tail reach_tr5
      (Step.workerConvertStart 1 (spawnUpdate (markUpdate traceJob)) rfl rfl rfl))⟩

/-- C5: after a worker's `process_job` has finished (its `finally` block ran
to completion), the job's input file no longer exists on disk and
`active_jobs` was decremented exactly once for that job. -/
theorem cleanup_guarantee (s : SysState) (hs : Reachable s) :
    ∀ j ∈ s.jobs, j.phase = some .done →
      j.inputFileOnDisk = false ∧ j.decrements = 1 := by
  intro j hj hph
  have hl := (reachable_inv hs).ledger j hj
  exact ⟨hl.2.2.1 hph, hl.2.1 (Or.inr hph)⟩

/-- Witness for C5: the finished job of the example run. -/
theorem cleanup_guarantee_witness :
    (traceDoneJob ∈ tr9.jobs ∧ traceDoneJob.phase = some .done) ∧
    traceDoneJob.inputFileOnDisk = false ∧ traceDoneJob.decrements = 1 :=
  ⟨⟨by simp [tr9, traceDoneJob, tr8, tr7, tr6], rfl⟩,
   cleanup_guarantee tr9 reach_tr9 traceDoneJob
     (by simp [tr9, traceDoneJob, tr8, tr7, tr6]) rfl⟩

/-- C6: in every reachable job record, `progress = 100` iff
`status = 'completed'`: creation writes `(0, queued)`, admission
`(10, processing)`, the success path `(100, completed)` in one update, and no
failure path touches progress or leaves `completed`. -/
theorem progress_completed_iff (s : SysState) (hs : Reachable s) :
    ∀ j ∈ s.jobs, (j.progress = 100 ↔ j.status = .completed) :=
  (reachable_inv hs).progIff

/-- Witness for C6: the completed job of the example run. -/
theorem progress_completed_iff_witness :
    traceDoneJob ∈ tr9.jobs ∧ (traceDoneJob.progress = 100 ↔ traceDoneJob.status = .completed) :=
  ⟨by simp [tr9, traceDoneJob, tr8, tr7, tr6],
   progress_completed_iff tr9 reach_tr9 traceDoneJob
     (by simp [tr9, traceDoneJob, tr8, tr7, tr6])⟩

/-- C7: every worker runs its conversion under the timeout obtained by
`Config.get_conversion_timeout` on the category that
`QueueManager._get_file_category` derives from the input extension; among the
per-category values the image timeout is strictly the shortest and the video
timeout strictly the longest. -/
theorem timeout_selection (s : SysState) (hs : Reachable s) :
    (∀ j ∈ s.jobs, ∀ t, j.timeoutUsed = some t →
      t = get_conversion_timeout (qm_get_file_category j.inputType) ∧
      get_conversion_timeout "image" ≤ t ∧ t ≤ get_conversion_timeout "video") ∧
    (∀ c ∈ ["audio", "video", "document", "presentation"],
      get_conversion_timeout "image" < get_conversion_timeout c) ∧
    (∀ c ∈ ["image", "audio", "document", "presentation"],
      get_conversion_timeout c < get_conversion_timeout "video") := by
  refine ⟨?_, by decide, by decide⟩
  intro j hj t ht
  have he := (reachable_inv hs).timeoutEq j hj t ht
  refine ⟨he, ?_, ?_⟩
  · rw [he]
    exact (timeout_bounds _ (qm_category_cases j.inputType)).1
  · rw [he]
    exact (timeout_bounds _ (qm_category_cases j.inputType)).2

/-- Witness for C7: the example png job ran under the image timeout. -/
theorem timeout_selection_witness :
    (traceDoneJob ∈ tr9.jobs ∧ traceDoneJob.timeoutUsed = some 300) ∧
    (300 = get_conversion_timeout (qm_get_file_category traceDoneJob.inputType) ∧
      get_conversion_timeout "image" ≤ 300 ∧ 300 ≤ get_conversion_timeout "video") :=
  ⟨⟨by simp [tr9, traceDoneJob, tr8, tr7, tr6], by rfl⟩,
   (timeout_selection tr9 reach_tr9).1 traceDoneJob
     (by simp [tr9, traceDoneJob, tr8, tr7, tr6]) 300 (by rfl)⟩

/-- C8 counterexample: the claim's "notified with a ban-specific message
distinct from a conversion-failure message" fails for the worker-start
detection point.  In the reachable state `cexBanState` a job whose requester
was found banned at the worker's re-check is failed without a strategy
invocation, but the requester is notified through the generic
conversion-failure message format (`send_status_update` with
"❌ Professional conversion failed: …"), and the ban-specific notification
(`send_ban_notification`) is never sent for it. -/
theorem ban_worker_notice_not_distinct :
    Reachable cexBanState ∧
    cexBanJob ∈ cexBanState.jobs ∧
    cexBanJob.banDetected = some .workerStart ∧
    cexBanJob.status = .failed ∧
    cexBanJob.strategyInvoked = false ∧
    Notice.ban ∉ cexBanJob.notices ∧
    Notice.statusUpdate (failNoticeText banWorkerErr) 0 ∈ cexBanJob.notices :=
  ⟨reach_cexBan, by simp [cexBanState, cexBanJob], rfl, rfl, rfl, by decide, by decide⟩

/-- C8 (amended): a job whose requester is found banned at the dispatcher's
pull or at the worker's re-check is marked failed without any conversion
strategy being invoked; the dispatcher-pull path notifies with the
ban-specific message, while the worker-start path notifies through the
generic conversion-failure message carrying the ban reason. -/
theorem ban_detection (s : SysState) (hs : Reachable s) :
    ∀ j ∈ s.jobs, ∀ p, j.banDetected = some p →
      j.status = .failed ∧ j.strategyInvoked = false ∧
      (p = .dispatcherPull → Notice.ban ∈ j.notices) ∧
      (p = .workerStart →
        Notice.statusUpdate (failNoticeText banWorkerErr) 0 ∈ j.notices ∧
        Notice.ban ∉ j.notices) := by
  intro j hj p hp
  have hb := (reachable_inv hs).banFacts j hj
  exact ⟨(hb.1 p hp).1, (hb.1 p hp).2,
    fun he => hb.2.1 (he ▸ hp), fun he => hb.2.2 (he ▸ hp)⟩

/-- Witness for the amended C8 at the concrete banned run. -/
theorem ban_detection_witness :
    (cexBanJob ∈ cexBanState.jobs ∧ cexBanJob.banDetected = some .workerStart) ∧
    (cexBanJob.status = .failed ∧ cexBanJob.strategyInvoked = false ∧
      (BanPoint.workerStart = .dispatcherPull → Notice.ban ∈ cexBanJob.notices) ∧
      (BanPoint.workerStart = .workerStart →
        Notice.statusUpdate (failNoticeText banWorkerErr) 0 ∈ cexBanJob.notices ∧
        Notice.ban ∉ cexBanJob.notices)) :=
  ⟨⟨by simp [cexBanState, cexBanJob], rfl⟩,
   ban_detection cexBanState reach_cexBan cexBanJob
     (by simp [cexBanState, cexBanJob]) .workerStart rfl⟩

/-- C3 counterexample: with user 1's job queued (reachable state `tr1`),
user 2's enqueue is assigned queue position 2 — the global
queued-or-processing count plus one — although user 2 has no
queued-or-processing job, so the per-requester count plus one is 1. -/
theorem enqueue_position_not_per_requester :
    Reachable tr1 ∧
    (add_to_queue tr1 2 "b.docx" "docx" "pdf" 7).toOption.map (fun r => r.2.2) = some 2 ∧
    spec_user_queued_count tr1.jobs 2 + 1 = 1 ∧
    (2 : Nat) ≠ 1 :=
  ⟨reach_tr1, rfl, rfl, by decide⟩

/-- C3 (amended): `add_to_queue` for a non-banned requester returns and
persists a queue position equal to the count of all currently
queued-or-processing jobs (across all requesters) plus one, assigns the
next id, persists the `queued` record at that position, and appends the job
to the internal FIFO queue. -/
theorem enqueue_spec (s : SysState) (u : Nat) (ip it of : String) (fs : Nat)
    (hb : s.banned u = false) :
    ∃ s', add_to_queue s u ip it of fs
        = .ok (s', s.nextId, get_queued_jobs_count s.jobs + 1) ∧
      s'.jobs = s.jobs ++ [newJob s u ip it of fs (get_queued_jobs_count s.jobs + 1)] ∧
      (newJob s u ip it of fs (get_queued_jobs_count s.jobs + 1)).status = .queued ∧
      (newJob s u ip it of fs (get_queued_jobs_count s.jobs + 1)).queuePosition
        = get_queued_jobs_count s.jobs + 1 ∧
      (newJob s u ip it of fs (get_queued_jobs_count s.jobs + 1)).id = s.nextId ∧
      s'.fifo = s.fifo ++ [s.nextId] := by
  unfold add_to_queue
  rw [if_neg (by simp [hb])]
  exact ⟨_, rfl, rfl, rfl, rfl, rfl, rfl⟩

/-- Witness for the amended C3 at the empty initial state. -/
theorem enqueue_spec_witness :
    initState.banned 3 = false ∧
    ∃ s', add_to_queue initState 3 "c.mp3" "mp3" "wav" 9
        = .ok (s', initState.nextId, get_queued_jobs_count initState.jobs + 1) ∧
      s'.jobs = initState.jobs
        ++ [newJob initState 3 "c.mp3" "mp3" "wav" 9 (get_queued_jobs_count initState.jobs + 1)] ∧
      (newJob initState 3 "c.mp3" "mp3" "wav" 9 (get_queued_jobs_count initState.jobs + 1)).status
        = .queued ∧
      (newJob initState 3 "c.mp3" "mp3" "wav" 9
        (get_queued_jobs_count initState.jobs + 1)).queuePosition
        = get_queued_jobs_count initState.jobs + 1 ∧
      (newJob initState 3 "c.mp3" "mp3" "wav" 9 (get_queued_jobs_count initState.jobs + 1)).id
        = initState.nextId ∧
      s'.fifo = initState.fifo ++ [initState.nextId] :=
  ⟨rfl, enqueue_spec initState 3 "c.mp3" "mp3" "wav" 9 rfl⟩

/-- C2: for the video→GIF plan (the repository's two-strategy chain), if the
primary FFmpeg strategy fails — including by its command timeout — and the
fallback succeeds with path `p`, the chain returns `p`; a successful primary
short-circuits in order; the worker's success update then records status
`completed` with output `p` while `error_message` stays NULL, so the earlier
failure never appears there; and when both strategies fail, the surfaced
error wraps only the last strategy's failure. -/
theorem fallback_correctness (e₁ p : String) (j : JState) (hj : j.errorMessage = none) :
    convert_video_gif (.err e₁) (.ok p) = .ok p ∧
    (∀ f, convert_video_gif (.ok p) f = .ok p) ∧
    (successUpdate p j).status = .completed ∧
    (successUpdate p j).outputFilePath = some p ∧
    (successUpdate p j).errorMessage = none ∧
    (∀ e₂, convert_video_gif (.err e₁) (.err e₂)
      = .err ("Professional video conversion failed: "
          ++ ("Fallback GIF conversion failed: " ++ e₂))) :=
  ⟨rfl, fun _ => rfl, rfl, rfl, hj, fun _ => rfl⟩

/-- Witness for C2 at a concrete timed-out primary strategy. -/
theorem fallback_correctness_witness :
    traceJob.errorMessage = none ∧
    (convert_video_gif (.err "Command timeout after 120 seconds") (.ok "v.gif")
        = .ok "v.gif" ∧
      (∀ f, convert_video_gif (.ok "v.gif") f = .ok "v.gif") ∧
      (successUpdate "v.gif" traceJob).status = .completed ∧
      (successUpdate "v.gif" traceJob).outputFilePath = some "v.gif" ∧
      (successUpdate "v.gif" traceJob).errorMessage = none ∧
      (∀ e₂, convert_video_gif (.err "Command timeout after 120 seconds") (.err e₂)
        = .err ("Professional video conversion failed: "
            ++ ("Fallback GIF conversion failed: " ++ e₂)))) :=
  ⟨rfl, fallback_correctness "Command timeout after 120 seconds" "v.gif" traceJob rfl⟩

/-! ## Router membership machinery -/

theorem mem_of_subset_dec {l u : List String} (h : ∀ y ∈ l, y ∈ u) {x : String}
    (hx : x ∈ l) : x ∈ u := h x hx

theorem mem_of_lookup_eq_some {β : Type} {l : List (String × β)} {k : String} {b : β}
    (h : List.lookup k l = some b) : (k, b) ∈ l := by
  rcases List.lookup_eq_some_iff.mp h with ⟨l₁, l₂, rfl, -⟩
  simp

theorem mapTargets_subset {cat ext x : String} (hx : x ∈ mapTargets cat ext) :
    x ∈ catUniverse cat := by
  unfold mapTargets at hx
  split at hx
  · rename_i m hm
    rcases hl : List.lookup ext m with - | l
    · rw [hl] at hx
      simp at hx
    · rw [hl] at hx
      simp only [Option.getD_some] at hx
      have key : ∀ p ∈ CONVERSION_MAP, ∀ q ∈ p.2, ∀ y ∈ q.2, y ∈ catUniverse p.1 := by
        decide
      exact key _ (mem_of_lookup_eq_some hm) _ (mem_of_lookup_eq_some hl) _ hx
  · simp at hx

theorem crossTargets_subset {cat ext x : String}
    (hc : cat ∈ ["image", "audio", "video", "document", "presentation"])
    (hx : x ∈ crossTargets cat ext) : x ∈ catUniverse cat := by
  fin_cases hc <;>
  · simp only [crossTargets] at hx
    repeat' split at hx
    all_goals first
      | (rename_i hcond; exact absurd hcond (by decide))
      | (exact absurd trivial (by assumption))
      | exact mem_of_subset_dec (by decide) hx

theorem basicTargets_subset {cat ext x : String}
    (hc : cat ∈ ["image", "audio", "video", "document", "presentation"])
    (hx : x ∈ basicTargets cat ext) : x ∈ catUniverse cat := by
  fin_cases hc <;>
  · simp only [basicTargets] at hx
    repeat' split at hx
    all_goals first
      | (rename_i hcond; exact absurd hcond (by decide))
      | (exact absurd trivial (by assumption))
      | exact mem_of_subset_dec (by decide) (List.mem_of_mem_filter hx)
      | simp at hx

theorem cat_of_router {ext cat : String} (h : router_get_file_category ext = some cat) :
    cat ∈ ["image", "audio", "video", "document", "presentation"] := by
  simp only [router_get_file_category] at h
  split at h
  · simp at h
  · rw [Option.map_eq_some'] at h
    obtain ⟨p, hp, rfl⟩ := h
    have hmem := List.mem_of_find?_eq_some hp
    fin_cases hmem <;> simp

theorem filteredSupported_subset {cat ext : String}
    (hc : cat ∈ ["image", "audio", "video", "document", "presentation"]) :
    ∀ x ∈ filteredSupported cat ext, x ∈ catUniverse cat := by
  intro x hx
  unfold filteredSupported at hx
  have hx' := List.mem_of_mem_filter hx
  rcases List.mem_append.mp hx' with h | h
  · rcases List.mem_append.mp h with h' | h'
    · exact mapTargets_subset h'
    · exact crossTargets_subset hc h'
  · exact basicTargets_subset hc h

theorem mem_pySetList {σ xs : List String} {x : String} :
    x ∈ pySetList σ xs ↔ x ∈ σ ∧ x ∈ xs := by
  simp [pySetList, List.mem_filter, contains_iff_mem]

theorem pySetList_nodup {σ xs : List String} (h : σ.Nodup) : (pySetList σ xs).Nodup :=
  h.filter _

theorem pySetList_length_le {σ xs u : List String} (hσ : σ.Nodup)
    (hsub : ∀ x ∈ xs, x ∈ u) : (pySetList σ xs).length ≤ u.toFinset.card := by
  rw [← List.toFinset_card_of_nodup (pySetList_nodup hσ)]
  apply Finset.card_le_card
  intro x hx
  rw [List.mem_toFinset] at hx
  rw [List.mem_toFinset]
  exact hsub x (mem_pySetList.mp hx).2

theorem mem_sorted_iff {s : List String} {x : String} :
    x ∈ (common_formats.filter (fun f => s.contains f)
      ++ s.filter (fun f => ¬ common_formats.contains f)) ↔ x ∈ s := by
  simp only [List.mem_append, List.mem_filter, decide_eq_true_eq, contains_iff_mem]
  constructor
  · rintro (⟨-, h⟩ | ⟨h, -⟩) <;> exact h
  · intro h
    by_cases hc : x ∈ common_formats
    · exact .inl ⟨hc, h⟩
    · exact .inr ⟨h, hc⟩

theorem sorted_perm {s : List String} (hs : s.Nodup) :
    List.Perm (common_formats.filter (fun f => s.contains f)
      ++ s.filter (fun f => ¬ common_formats.contains f)) s := by
  apply List.perm_of_nodup_nodup_toFinset_eq
  · rw [List.nodup_append]
    refine ⟨(by decide : common_formats.Nodup).filter _, hs.filter _, ?_⟩
    intro a ha hb
    have h1c := (List.mem_filter.mp ha).1
    have h2 := (List.mem_filter.mp hb).2
    simp only [decide_eq_true_eq, contains_iff_mem] at h2
    exact h2 h1c
  · exact hs
  · ext x
    simp only [List.mem_toFinset]
    exact mem_sorted_iff

theorem sorted_length {s : List String} (hs : s.Nodup) :
    (common_formats.filter (fun f => s.contains f)
      ++ s.filter (fun f => ¬ common_formats.contains f)).length = s.length :=
  (sorted_perm hs).length_eq

theorem catUniverse_card_le {cat : String}
    (hc : cat ∈ ["image", "audio", "video", "document", "presentation"]) :
    (catUniverse cat).toFinset.card ≤ 15 := by
  fin_cases hc <;> decide

theorem mem_gsc_iff {σ : List String} (hσ : σ.Nodup)
    (hcov : ∀ y ∈ allFormats, y ∈ σ) {ext cat : String}
    (hcat : router_get_file_category ext = some cat) (x : String) :
    x ∈ get_supported_conversions σ ext ↔ x ∈ filteredSupported cat ext := by
  have hc := cat_of_router hcat
  have hU : ∀ y ∈ catUniverse cat, y ∈ allFormats := by
    fin_cases hc <;> decide
  have hsubσ : ∀ y ∈ filteredSupported cat ext, y ∈ σ :=
    fun y hy => hcov y (hU y (filteredSupported_subset hc y hy))
  have hnodup : (pySetList σ (filteredSupported cat ext)).Nodup := pySetList_nodup hσ
  have hlen : (common_formats.filter
        (fun f => (pySetList σ (filteredSupported cat ext)).contains f)
      ++ (pySetList σ (filteredSupported cat ext)).filter
        (fun f => ¬ common_formats.contains f)).length ≤ 15 := by
    rw [sorted_length hnodup]
    calc (pySetList σ (filteredSupported cat ext)).length
        ≤ (catUniverse cat).toFinset.card :=
          pySetList_length_le hσ (filteredSupported_subset hc)
      _ ≤ 15 := catUniverse_card_le hc
  simp only [get_supported_conversions, hcat]
  rw [List.take_of_length_le hlen]
  rw [mem_sorted_iff, mem_pySetList]
  constructor
  · exact fun h => h.2
  · intro h
    exact ⟨hsubσ x h, h⟩

theorem commons_first (l : List String) :
    ∃ A B, (common_formats.filter (fun f => l.contains f)
        ++ l.filter (fun f => ¬ common_formats.contains f)).take 15 = A ++ B ∧
      (∀ y ∈ A, y ∈ common_formats) ∧ (∀ y ∈ B, y ∉ common_formats) := by
  rw [List.take_append_eq_append_take]
  refine ⟨_, _, rfl, ?_, ?_⟩
  · intro y hy
    exact (List.mem_filter.mp (List.mem_of_mem_take hy)).1
  · intro y hy
    have h2 := (List.mem_filter.mp (List.mem_of_mem_take hy)).2
    simpa using h2

/-- C4 counterexample: the claim's "returns the empty list exactly when the
source format maps to no known category" is false: the raw extension "PPTX"
maps to the `presentation` category (the category lookup lower-cases), yet
`get_supported_conversions` returns the empty list for it, because all its
`CONVERSION_MAP` and cross-category lookups use the raw, case-sensitive
extension. -/
theorem supported_conversions_case_gap :
    router_get_file_category "PPTX" = some "presentation" ∧
    get_supported_conversions allFormats "PPTX" = [] := ⟨rfl, rfl⟩

/-- C4 (amended): `get_supported_conversions` returns the empty list whenever
the source extension maps to no category; for the canonical (lower-case,
dot-free) extensions the system stores, it returns a non-empty list that
contains every `CONVERSION_MAP` target of that extension; and every returned
list carries the common formats first.  For non-canonical raw forms
(e.g. "PPTX") the category may be known and the list nevertheless empty. -/
theorem supported_conversions_spec :
    (∀ ext, router_get_file_category ext = none →
      ∀ σ, get_supported_conversions σ ext = []) ∧
    (∀ σ, σ.Nodup → (∀ y ∈ allFormats, y ∈ σ) →
      ∀ ext ∈ canonicalExtensions, ∀ cat, router_get_file_category ext = some cat →
        get_supported_conversions σ ext ≠ [] ∧
        ∀ t ∈ mapTargets cat ext, t ∈ get_supported_conversions σ ext) ∧
    (∀ σ ext, ∃ A B, get_supported_conversions σ ext = A ++ B ∧
      (∀ y ∈ A, y ∈ common_formats) ∧ (∀ y ∈ B, y ∉ common_formats)) := by
  refine ⟨?_, ?_, ?_⟩
  · intro ext h σ
    simp [get_supported_conversions, h]
  · intro σ hσ hcov ext hext cat hcat
    have hq : router_get_file_category ext = some (qm_get_file_category ext) :=
      (by decide : ∀ e ∈ canonicalExtensions,
        router_get_file_category e = some (qm_get_file_category e)) ext hext
    obtain rfl : cat = qm_get_file_category ext := Option.some.inj (hq.symm.trans hcat).symm
    refine ⟨?_, ?_⟩
    · obtain ⟨t, ht⟩ := List.exists_mem_of_ne_nil _
        ((by decide : ∀ e ∈ canonicalExtensions,
          filteredSupported (qm_get_file_category e) e ≠ []) ext hext)
      exact List.ne_nil_of_mem ((mem_gsc_iff hσ hcov hcat t).mpr ht)
    · intro t ht
      exact (mem_gsc_iff hσ hcov hcat t).mpr
        ((by decide : ∀ e ∈ canonicalExtensions,
          ∀ y ∈ mapTargets (qm_get_file_category e) e,
            y ∈ filteredSupported (qm_get_file_category e) e) ext hext t ht)
  · intro σ ext
    cases hcat : router_get_file_category ext with
    | none =>
      refine ⟨[], [], by simp [get_supported_conversions, hcat], by simp, by simp⟩
    | some cat =>
      simp only [get_supported_conversions, hcat]
      exact commons_first _

/-- Witness for the amended C4 at a concrete extension and enumeration order. -/
theorem supported_conversions_spec_witness :
    (router_get_file_category "#" = none ∧
      get_supported_conversions allFormats "#" = []) ∧
    ("mp4" ∈ canonicalExtensions ∧
      router_get_file_category "mp4" = some "video" ∧
      get_supported_conversions allFormats "mp4" ≠ [] ∧
      ∀ t ∈ mapTargets "video" "mp4", t ∈ get_supported_conversions allFormats "mp4") :=
  ⟨⟨rfl, supported_conversions_spec.1 "#" rfl allFormats⟩,
   ⟨by decide, rfl,
    (supported_conversions_spec.2.1 allFormats (by decide) (by decide) "mp4"
      (by decide) "video" rfl).1,
    (supported_conversions_spec.2.1 allFormats (by decide) (by decide) "mp4"
      (by decide) "video" rfl).2⟩⟩

/-- C9 counterexample: the routing result is not stable across process runs.
`allFormats` and its reversal are both legitimate set-enumeration orders
(duplicate-free and covering every format), yet they order the result of
`get_supported_conversions` for "mp3" differently — the relative order of the
non-common formats follows the hash-dependent `list(set(...))` enumeration. -/
theorem routing_order_varies_across_runs :
    allFormats.Nodup ∧ allFormats.reverse.Nodup ∧
    (∀ y ∈ allFormats, y ∈ allFormats.reverse) ∧
    get_supported_conversions allFormats "mp3"
      ≠ get_supported_conversions allFormats.reverse "mp3" :=
  ⟨by decide, by decide, by decide, by decide⟩

/-- C9 (amended): within one process run (a fixed set-enumeration order) the
routing decision is a pure function of the input extension, so two calls with
the same extension return the same list; across process runs the *set* of
returned formats is the same for every extension, but their order beyond the
common-formats prefix may differ with the run's hash order. -/
theorem routing_set_deterministic (σ₁ σ₂ : List String)
    (h₁ : σ₁.Nodup) (h₂ : σ₂.Nodup)
    (hc₁ : ∀ y ∈ allFormats, y ∈ σ₁) (hc₂ : ∀ y ∈ allFormats, y ∈ σ₂) (ext : String) :
    (get_supported_conversions σ₁ ext).toFinset
      = (get_supported_conversions σ₂ ext).toFinset := by
  cases hcat : router_get_file_category ext with
  | none => simp [get_supported_conversions, hcat]
  | some cat =>
    ext x
    simp only [List.mem_toFinset]
    rw [mem_gsc_iff h₁ hc₁ hcat, mem_gsc_iff h₂ hc₂ hcat]

/-- Witness for the amended C9 at two concrete enumeration orders. -/
theorem routing_set_deterministic_witness :
    allFormats.Nodup ∧ allFormats.reverse.Nodup ∧
    (get_supported_conversions allFormats "mp3").toFinset
      = (get_supported_conversions allFormats.reverse "mp3").toFinset :=
  ⟨by decide, by decide,
   routing_set_deterministic allFormats allFormats.reverse (by decide) (by decide)
     (by decide) (by decide) "mp3"⟩

/-- C10 counterexample: for the extension ".png", whose lower-cased form
appears in no category of `SUPPORTED_FORMATS`, the queue manager's
classifier defaults to 'document', but the router's classifier — which also
strips leading dots — returns the `image` category rather than `None`. -/
theorem category_dot_extension_divergence :
    (∀ c ∈ SUPPORTED_FORMATS, pyLower ".png" ∉ c.2) ∧
    qm_get_file_category ".png" = "document" ∧
    router_get_file_category ".png" = some "image" := ⟨by decide, rfl, rfl⟩

/-- C10 (amended): for every extension whose lower-cased form appears in no
category, `QueueManager._get_file_category` returns 'document' (so such jobs
run under the document timeout); `ConverterRouter.get_file_category` returns
`None` exactly when the lower-cased, dot-stripped form is in its unsupported
list or appears in no category — so the two classifiers disagree on
extensions such as ".png" whose dot-stripped form is a known format. -/
theorem default_category_spec :
    (∀ ext, (∀ c ∈ SUPPORTED_FORMATS, pyLower ext ∉ c.2) →
      qm_get_file_category ext = "document") ∧
    (∀ ext, router_get_file_category ext = none ↔
      (lstripDot (pyLower ext) ∈ unsupported_formats ∨
        ∀ c ∈ SUPPORTED_FORMATS, lstripDot (pyLower ext) ∉ c.2)) := by
  constructor
  · intro ext h
    simp only [qm_get_file_category]
    split
    · rename_i p hp
      exfalso
      have hpred := List.find?_some hp
      simp only [contains_iff_mem, decide_eq_true_eq] at hpred
      exact h p (List.mem_of_find?_eq_some hp) hpred
    · rfl
  · intro ext
    simp only [router_get_file_category]
    constructor
    · intro h
      split at h
      · rename_i hcond
        left
        simp only [contains_iff_mem, decide_eq_true_eq] at hcond
        exact hcond
      · right
        rw [Option.map_eq_none'] at h
        rw [List.find?_eq_none] at h
        intro c hc hmem
        have hnc := h c hc
        simp only [contains_iff_mem, decide_eq_true_eq] at hnc
        exact hnc hmem
    · intro h
      split
      · rfl
      · rename_i hcond
        rcases h with h | h
        · exfalso
          apply hcond
          simp only [contains_iff_mem, decide_eq_true_eq]
          exact h
        · rw [Option.map_eq_none', List.find?_eq_none]
          intro p hp
          simp only [contains_iff_mem, decide_eq_true_eq]
          exact h p hp

/-- Witness for the amended C10 at concrete extensions. -/
theorem default_category_spec_witness :
    (∀ c ∈ SUPPORTED_FORMATS, pyLower "xyz" ∉ c.2) ∧
    qm_get_file_category "xyz" = "document" ∧
    (router_get_file_category "zip" = none ↔
      (lstripDot (pyLower "zip") ∈ unsupported_formats ∨
        ∀ c ∈ SUPPORTED_FORMATS, lstripDot (pyLower "zip") ∉ c.2)) :=
  ⟨by decide, default_category_spec.1 "xyz" (by decide), default_category_spec.2 "zip"⟩

end FileConverter
